import Mathlib

/-!
# Verification of the web-mapviewer KML/GPX import pipeline and elevation profile engine

This file gives a shallow embedding, in Lean 4, of the algorithmic core of the
`web-mapviewer` repository:

* `src/api/profile.api.js` — the elevation profile statistics engine
  (`GeoAdminProfile`: `totalAscent`, `totalDescent`, `elevationDifference`,
  `hikingTime`) and the `profile` request function;
* `src/utils/kmlUtils.js` — the KML feature deserialization pipeline
  (`parseIconUrl`, `getIconStyle`, `generateIconFromStyle`, `getIcon`,
  `getIconSize`, `getFillColor`, `getFeatureType`, `getKmlFeatureCoordinates`,
  `getEditableFeatureFromKmlFeature`, `getKmlExtent`);
* `src/modules/map/components/cesium/utils/addPrimitiveLayer-mixins.js` —
  file-content sniffing (`isKml`, `isGpx`) and `handleFileContent`.

JavaScript numbers are modelled by rationals (`ℚ`); the only places where
IEEE special values matter (division by zero in `generateIconFromStyle`,
the `±Infinity` initial extent of `ol/extent`) use an explicit `JsNum` type
with JavaScript division semantics.  Thrown JavaScript exceptions are
modelled with `Except`.  Functions of the repository that are not part of
the given sources (only their callers are) are modelled from the spec and
marked as such in their doc strings.
-/

/-- JavaScript `Math.round`: round half toward positive infinity. -/
def jsRound (q : ℚ) : ℤ := ⌊q + 1/2⌋

/-- A JavaScript number: either a finite value (modelled as a rational) or
one of the IEEE special values produced by division by zero. -/
inductive JsNum where
  | num (q : ℚ)
  | posInf
  | negInf
  | nan
  deriving DecidableEq, Repr

/-- JavaScript division `a / b` for finite operands: division by zero yields
`Infinity`/`-Infinity`/`NaN` instead of throwing. -/
def jsDiv (a b : ℚ) : JsNum :=
  if b ≠ 0 then .num (a / b)
  else if a > 0 then .posInf
  else if a < 0 then .negInf
  else .nan

/-! ## Elevation profile engine (`src/api/profile.api.js`) -/

/-- `ProfilePoint` of `profile.api.js`: distance from start, planar
coordinate, and elevation (COMB model). -/
structure ProfilePoint where
  dist : ℚ
  coordinate : ℚ × ℚ
  elevation : ℚ
  deriving DecidableEq, Repr

/-- Default point used to express JavaScript array indexing (all accesses in
the source are in bounds, so the default value is never read). -/
def defaultPoint : ProfilePoint := ⟨0, (0, 0), 0⟩

/-- `GeoAdminProfile.hasData`: the profile has at least 2 points. -/
def hasData (points : List ProfilePoint) : Bool := 2 ≤ points.length

/-- `GeoAdminProfile.elevationDifference`: elevation of the last point minus
elevation of the first point, 0 without data. -/
def elevationDifference (points : List ProfilePoint) : ℚ :=
  if 2 ≤ points.length then
    (points.getD (points.length - 1) defaultPoint).elevation
      - (points.getD 0 defaultPoint).elevation
  else 0

/-- `GeoAdminProfile.totalAscent`: `reduce` over the points, skipping index
0, accumulating `Math.max(elevation[i] - elevation[i-1], 0)`. -/
def totalAscent (points : List ProfilePoint) : ℚ :=
  ((List.range points.length).map (fun i =>
    if i = 0 then 0
    else
      max ((points.getD i defaultPoint).elevation
        - (points.getD (i - 1) defaultPoint).elevation) 0)).sum

/-- `GeoAdminProfile.totalDescent`: absolute value of the `reduce` over the
points, skipping index 0, accumulating `- Math.min(elevation[i] -
elevation[i-1], 0)`. -/
def totalDescent (points : List ProfilePoint) : ℚ :=
  |((List.range points.length).map (fun i =>
    if i = 0 then 0
    else
      -(min ((points.getD i defaultPoint).elevation
        - (points.getD (i - 1) defaultPoint).elevation) 0))).sum|

/-- The 16 schweizmobil hiking-formula constants of
`GeoAdminProfile.hikingTime`. -/
def arrConstants : List ℚ :=
  [14.271, 3.6991, 2.5922, -1.4384, 0.32105, 0.81542, -0.090261, -0.20757,
    0.010192, 0.028588, -0.00057466, -0.0021842, 1.5176e-5, 8.6894e-5,
    -1.3584e-7, -1.4026e-6]

/-- One segment contribution of `hikingTime`: minutes to walk from
`currentPoint` to `nextPoint`. -/
def hikingSegment (currentPoint nextPoint : ProfilePoint) : ℚ :=
  let distanceDelta := nextPoint.dist - currentPoint.dist
  if distanceDelta = 0 then 0
  else
    let elevationDelta := nextPoint.elevation - currentPoint.elevation
    let slope := elevationDelta * 10 / distanceDelta
    let minutesPerKilometer :=
      if -4 < slope ∧ slope < 4 then
        (arrConstants.enum.map (fun ci => ci.2 * slope ^ ci.1)).sum
      else if slope > 0 then 17 * slope
      else -9 * slope
    distanceDelta * minutesPerKilometer / 1000

/-- `GeoAdminProfile.hikingTime`: 0 without data; otherwise map each index
to its segment contribution (only indices `< length - 2` contribute, i.e.
the final consecutive pair is skipped), sum, and `Math.round`. -/
def hikingTime (points : List ProfilePoint) : ℤ :=
  if 2 ≤ points.length then
    jsRound (((List.range points.length).map (fun index =>
      if index < points.length - 2 then
        hikingSegment (points.getD index defaultPoint)
          (points.getD (index + 1) defaultPoint)
      else 0)).sum)
  else 0

/-- The hiking-time computation as worded by the spec: sum, over each
consecutive pair of points except the final pair, of the segment
contribution, rounded to the nearest whole minute (JavaScript rounding). -/
def hikingTimeSpec (points : List ProfilePoint) : ℤ :=
  jsRound ((((points.zip points.tail).dropLast).map
    (fun pq => hikingSegment pq.1 pq.2)).sum)

/-! Helper recursive forms of the sums, used only in proofs. -/

/-- Sum of segment contributions over consecutive pairs except the final
pair (stops as soon as fewer than 3 points remain). -/
def segSum : List ProfilePoint → ℚ
  | a :: b :: c :: rest => hikingSegment a b + segSum (b :: c :: rest)
  | _ => 0

/-- Sum of `max(elevation delta, 0)` over consecutive pairs. -/
def ascSum : List ProfilePoint → ℚ
  | a :: b :: rest => max (b.elevation - a.elevation) 0 + ascSum (b :: rest)
  | _ => 0

/-- Sum of `-min(elevation delta, 0)` over consecutive pairs. -/
def descSum : List ProfilePoint → ℚ
  | a :: b :: rest => -(min (b.elevation - a.elevation) 0) + descSum (b :: rest)
  | _ => 0

theorem list_range_map_sum_eq_finset (f : ℕ → ℚ) :
    ∀ n : ℕ, ((List.range n).map f).sum = ∑ i ∈ Finset.range n, f i := by
  intro n
  induction n with
  | zero => simp
  | succ m ih =>
    rw [List.range_succ, List.map_append, List.sum_append, Finset.sum_range_succ, ih]
    simp

theorem sum_range_ite_lt (n m : ℕ) (hm : m ≤ n) (g : ℕ → ℚ) :
    (∑ i ∈ Finset.range n, if i < m then g i else 0)
      = ∑ i ∈ Finset.range m, g i := by
  have h1 : (∑ i ∈ Finset.range m, if i < m then g i else 0)
      = ∑ i ∈ Finset.range n, if i < m then g i else 0 := by
    refine Finset.sum_subset (Finset.range_subset.mpr hm) ?_
    intro x _ hxm
    simp only [Finset.mem_range] at hxm
    rw [if_neg (by omega)]
  rw [← h1]
  refine Finset.sum_congr rfl ?_
  intro i hi
  simp only [Finset.mem_range] at hi
  rw [if_pos hi]

theorem segSum_eq_index_sum : ∀ points : List ProfilePoint,
    (∑ i ∈ Finset.range (points.length - 2),
      hikingSegment (points.getD i defaultPoint)
        (points.getD (i + 1) defaultPoint)) = segSum points
  | [] => by simp [segSum]
  | [a] => by simp [segSum]
  | [a, b] => by simp [segSum]
  | a :: b :: c :: rest => by
    have ih := segSum_eq_index_sum (b :: c :: rest)
    have hlen : (a :: b :: c :: rest).length - 2 = ((b :: c :: rest).length - 2) + 1 := by
      simp
    rw [hlen, Finset.sum_range_succ']
    simp only [List.getD_cons_succ, List.getD_cons_zero] at ih ⊢
    rw [segSum]
    linarith [ih]

theorem segSum_eq_pair_sum : ∀ points : List ProfilePoint,
    (((points.zip points.tail).dropLast).map
      (fun pq => hikingSegment pq.1 pq.2)).sum = segSum points
  | [] => by simp [segSum]
  | [a] => by simp [segSum]
  | [a, b] => by simp [segSum]
  | a :: b :: c :: rest => by
    have ih := segSum_eq_pair_sum (b :: c :: rest)
    have hzip : ((a :: b :: c :: rest).zip (a :: b :: c :: rest).tail)
        = (a, b) :: ((b :: c :: rest).zip (b :: c :: rest).tail) := by
      simp [List.zip]
    rw [hzip]
    have hne : ((b :: c :: rest).zip (b :: c :: rest).tail) ≠ [] := by
      simp [List.zip]
    rw [List.dropLast_cons_of_ne_nil hne]
    rw [List.map_cons, List.sum_cons, ih, segSum]

/-- C1: for every profile, `hikingTime` equals the spec computation:
the rounded sum, over each consecutive pair of points except the final
pair, of the segment contribution (zero-distance segments contributing 0,
the 16-term polynomial inside slope range (-4, 4), the linear approximation
outside); and profiles with fewer than 2 points give 0. -/
theorem hikingTime_eq_spec (points : List ProfilePoint) :
    hikingTime points = hikingTimeSpec points
      ∧ (points.length < 2 → hikingTime points = 0) := by
  refine ⟨?_, ?_⟩
  case refine_2 =>
    intro hlt
    unfold hikingTime
    rw [if_neg (by omega)]
  unfold hikingTime hikingTimeSpec
  by_cases h : 2 ≤ points.length
  · rw [if_pos h]
    rw [list_range_map_sum_eq_finset]
    rw [sum_range_ite_lt points.length (points.length - 2) (by omega)]
    rw [segSum_eq_index_sum, segSum_eq_pair_sum]
  · rw [if_neg h]
    match points, h with
    | [], _ =>
      simp only [List.zip_nil_left, List.dropLast_nil, List.map_nil, List.sum_nil]
      unfold jsRound
      norm_num
    | [a], _ =>
      simp only [List.tail_cons, List.zip_nil_right, List.dropLast_nil,
        List.map_nil, List.sum_nil]
      unfold jsRound
      norm_num
    | a :: b :: rest, h => exact absurd (by simp) h

theorem totalAscent_eq_ascSum : ∀ points : List ProfilePoint,
    totalAscent points = ascSum points := by
  have key : ∀ points : List ProfilePoint,
      (∑ i ∈ Finset.range (points.length - 1),
        max ((points.getD (i + 1) defaultPoint).elevation
          - (points.getD i defaultPoint).elevation) 0) = ascSum points := by
    intro points
    induction points with
    | nil => simp [ascSum]
    | cons a rest ih =>
      match rest with
      | [] => simp [ascSum]
      | b :: rest' =>
        have hlen : (a :: b :: rest').length - 1 = ((b :: rest').length - 1) + 1 := by
          simp
        rw [hlen, Finset.sum_range_succ']
        simp only [List.getD_cons_succ, List.getD_cons_zero] at ih ⊢
        rw [ascSum]
        linarith [ih]
  intro points
  unfold totalAscent
  rw [list_range_map_sum_eq_finset]
  have split : (∑ i ∈ Finset.range points.length, (if i = 0 then 0
      else max ((points.getD i defaultPoint).elevation
        - (points.getD (i - 1) defaultPoint).elevation) 0))
      = ∑ i ∈ Finset.range (points.length - 1),
        max ((points.getD (i + 1) defaultPoint).elevation
          - (points.getD i defaultPoint).elevation) 0 := by
    match points with
    | [] => simp
    | p :: rest =>
      rw [List.length_cons, Finset.sum_range_succ']
      simp
  rw [split, key]

theorem totalDescent_eq_descSum : ∀ points : List ProfilePoint,
    totalDescent points = descSum points := by
  have descSum_nonneg : ∀ points : List ProfilePoint, 0 ≤ descSum points := by
    intro points
    induction points with
    | nil => simp [descSum]
    | cons a rest ih =>
      match rest with
      | [] => simp [descSum]
      | b :: rest' =>
        rw [descSum]
        have h1 : min (b.elevation - a.elevation) 0 ≤ 0 := min_le_right _ _
        linarith [ih]
  have key : ∀ points : List ProfilePoint,
      (∑ i ∈ Finset.range (points.length - 1),
        -(min ((points.getD (i + 1) defaultPoint).elevation
          - (points.getD i defaultPoint).elevation) 0)) = descSum points := by
    intro points
    induction points with
    | nil => simp [descSum]
    | cons a rest ih =>
      match rest with
      | [] => simp [descSum]
      | b :: rest' =>
        have hlen : (a :: b :: rest').length - 1 = ((b :: rest').length - 1) + 1 := by
          simp
        rw [hlen, Finset.sum_range_succ']
        simp only [List.getD_cons_succ, List.getD_cons_zero] at ih ⊢
        rw [descSum]
        linarith [ih]
  intro points
  unfold totalDescent
  rw [list_range_map_sum_eq_finset]
  have split : (∑ i ∈ Finset.range points.length, (if i = 0 then 0
      else -(min ((points.getD i defaultPoint).elevation
        - (points.getD (i - 1) defaultPoint).elevation) 0)))
      = ∑ i ∈ Finset.range (points.length - 1),
        -(min ((points.getD (i + 1) defaultPoint).elevation
          - (points.getD i defaultPoint).elevation) 0) := by
    match points with
    | [] => simp
    | p :: rest =>
      rw [List.length_cons, Finset.sum_range_succ']
      simp
  rw [split, key]
  exact abs_of_nonneg (descSum_nonneg points)

theorem ascSum_sub_descSum : ∀ (l : List ProfilePoint) (a : ProfilePoint), l ≠ [] →
    ascSum (a :: l) - descSum (a :: l)
      = ((a :: l).getD ((a :: l).length - 1) defaultPoint).elevation - a.elevation
  | [], a, h => absurd rfl h
  | [b], a, _ => by
    have ha : ascSum (a :: [b]) = max (b.elevation - a.elevation) 0 + ascSum [b] := rfl
    have ha0 : ascSum [b] = 0 := rfl
    have hd : descSum (a :: [b]) = -(min (b.elevation - a.elevation) 0) + descSum [b] := rfl
    have hd0 : descSum [b] = 0 := rfl
    have hget : ((a :: [b]).getD ((a :: [b]).length - 1) defaultPoint) = b := rfl
    rw [ha, ha0, hd, hd0, hget]
    have hmm : max (b.elevation - a.elevation) 0 + min (b.elevation - a.elevation) 0
        = b.elevation - a.elevation + 0 := max_add_min _ _
    linarith [hmm]
  | b :: c :: r, a, _ => by
    have ih := ascSum_sub_descSum (c :: r) b (by simp)
    have ha : ascSum (a :: b :: c :: r)
        = max (b.elevation - a.elevation) 0 + ascSum (b :: c :: r) := rfl
    have hd : descSum (a :: b :: c :: r)
        = -(min (b.elevation - a.elevation) 0) + descSum (b :: c :: r) := rfl
    have hget : ((a :: b :: c :: r).getD ((a :: b :: c :: r).length - 1) defaultPoint)
        = ((b :: c :: r).getD ((b :: c :: r).length - 1) defaultPoint) := by
      have hlen : (a :: b :: c :: r).length - 1 = ((b :: c :: r).length - 1) + 1 := by
        simp
      rw [hlen, List.getD_cons_succ]
    have hmm : max (b.elevation - a.elevation) 0 + min (b.elevation - a.elevation) 0
        = b.elevation - a.elevation + 0 := max_add_min _ _
    rw [ha, hd, hget]
    linarith [ih, hmm]

/-- C6: for every profile point sequence with at least 2 points,
`totalAscent - totalDescent` equals `elevationDifference` exactly. -/
theorem totalAscent_sub_totalDescent_eq_elevationDifference
    (points : List ProfilePoint) (h : 2 ≤ points.length) :
    totalAscent points - totalDescent points = elevationDifference points := by
  rw [totalAscent_eq_ascSum, totalDescent_eq_descSum]
  match points, h with
  | a :: b :: rest, _ =>
    rw [ascSum_sub_descSum (b :: rest) a (by simp)]
    unfold elevationDifference
    rw [if_pos (by simp)]
    simp

/-! ## The `profile` request function (`src/api/profile.api.js`) -/

/-- One raw backend sample of the profile endpoint:
`{dist, easting, northing, alts: {COMB}}`. -/
structure BackendRawPoint where
  dist : ℚ
  easting : ℚ
  northing : ℚ
  altsComb : ℚ
  deriving DecidableEq, Repr

/-- `parseProfileFromBackendResponse`: build `ProfilePoint`s from the raw
backend samples. -/
def parseProfileFromBackendResponse (backendResponse : List BackendRawPoint) :
    List ProfilePoint :=
  backendResponse.map (fun rawData =>
    ⟨rawData.dist, (rawData.easting, rawData.northing), rawData.altsComb⟩)

/-- The HTTP request issued by `axios` inside `profile`. -/
structure ProfileHttpRequest where
  urlPath : String
  offset : ℕ
  sr : ℕ
  distinctPoints : Bool
  coordinates : List (ℚ × ℚ)
  deriving DecidableEq, Repr

/-- The value a resolved profile promise carries: a parsed profile for
`.json`, the raw response data for `.csv`. -/
inductive ProfileValue where
  | profile (points : List ProfilePoint)
  | raw (data : List BackendRawPoint)
  deriving DecidableEq, Repr

/-- A promise settlement: JavaScript promises keep the first settlement and
ignore later `resolve`/`reject` calls. -/
inductive PromiseSettlement where
  | resolved (value : ProfileValue)
  | rejected (message : String)
  deriving DecidableEq, Repr

/-- Outcome of the `axios` call, as seen by the `.then`/`.catch` handlers:
either a response (whose `data` may be missing/falsy) or a network error. -/
inductive AxiosOutcome where
  | success (data : Option (List BackendRawPoint))
  | failure (error : String)
  deriving DecidableEq, Repr

/-- The `.then`/`.catch` handlers of `profile`. -/
def axiosSettle (fileExtension : String) (outcome : AxiosOutcome) :
    PromiseSettlement :=
  match outcome with
  | .success (some data) =>
    if fileExtension = ".json" then
      .resolved (.profile (parseProfileFromBackendResponse data))
    else .resolved (.raw data)
  | .success none => .rejected "Incorrect response while getting profile"
  | .failure error => .rejected error

/-- EPSG number of the LV95 coordinate system (`CoordinateSystems.LV95`,
an external constant of `coordinateUtils`). -/
def lv95EpsgNumber : ℕ := 2056

/-- The `profile` function of `profile.api.js`.  It returns the promise
settlement together with the list of HTTP requests issued during the call.
Note the source calls `reject(...)` on validation failure but does not
return, so execution falls through to the `axios` call: the request is
issued unconditionally, while the promise keeps its first settlement. -/
def profileRun (coordinates : Option (List (ℚ × ℚ))) (fileExtension : String)
    (axiosOutcome : AxiosOutcome) :
    PromiseSettlement × List ProfileHttpRequest :=
  let settlements :=
    (if fileExtension ≠ ".json" ∧ fileExtension ≠ ".csv" then
      [PromiseSettlement.rejected "Not supported file extension"]
    else [])
    ++ (if coordinates = none ∨ coordinates = some [] then
      [PromiseSettlement.rejected "Coordinates not provided"]
    else [])
    ++ [axiosSettle fileExtension axiosOutcome]
  let request : ProfileHttpRequest :=
    ⟨"rest/services/profile" ++ fileExtension, 0, lv95EpsgNumber, true,
      coordinates.getD []⟩
  (settlements.headD (.rejected ""), [request])

/-- C3 (evaluation at the failing inputs): with an empty coordinate
list, or with an unsupported output format, the promise does reject with
the validation error message, but an HTTP request is nevertheless issued —
`reject` does not short-circuit the function, contradicting the claim that
no request is sent. -/
theorem profile_rejects_but_still_issues_request :
    (profileRun (some []) ".json" (.success (some []))).1
        = PromiseSettlement.rejected "Coordinates not provided"
      ∧ (profileRun (some []) ".json" (.success (some []))).2
        = [⟨"rest/services/profile.json", 0, 2056, true, []⟩]
      ∧ (profileRun (some [(2600000, 1200000)]) ".pdf" (.success (some []))).1
        = PromiseSettlement.rejected "Not supported file extension"
      ∧ (profileRun (some [(2600000, 1200000)]) ".pdf" (.success (some []))).2 ≠ [] := by
  refine ⟨rfl, rfl, rfl, ?_⟩
  decide

/-- Witness for C1 at the empty profile. -/
theorem hikingTime_eq_spec_witness : hikingTime [] = 0 :=
  (hikingTime_eq_spec []).2 (by decide)

/-- Witness for C6 at a concrete profile. -/
theorem totalAscent_sub_totalDescent_witness :
    totalAscent [⟨0, (0, 0), 100⟩, ⟨1000, (0, 1000), 150⟩]
        - totalDescent [⟨0, (0, 0), 100⟩, ⟨1000, (0, 1000), 150⟩]
      = elevationDifference [⟨0, (0, 0), 100⟩, ⟨1000, (0, 1000), 150⟩] :=
  totalAscent_sub_totalDescent_eq_elevationDifference
    [⟨0, (0, 0), 100⟩, ⟨1000, (0, 1000), 150⟩] (by decide)

/-! ## String machinery

JavaScript strings are modelled as lists of characters (`Str`).  The regex
matchers of `parseIconUrl` and the substring tests of `isKml`/`isGpx` are
implemented as executable scanners over such lists, faithful to the
leftmost-match / greedy / lazy semantics of the source regexes. -/

/-- A JavaScript string, modelled as a list of characters. -/
abbrev Str := List Char

/-- Shorthand turning a Lean string literal into the `Str` model. -/
def strL (s : String) : Str := s.toList

/-- Does the list start with the given prefix? -/
def startsWithL : Str → Str → Bool
  | _, [] => true
  | [], _ :: _ => false
  | a :: as, b :: bs => a = b && startsWithL as bs

/-- Substring test (JavaScript `/pat/.test(s)` for a literal pattern). -/
def containsSubL : Str → Str → Bool
  | [], needle => needle.isEmpty
  | a :: as, needle => startsWithL (a :: as) needle || containsSubL as needle

/-- Strip an expected literal prefix, returning the remainder. -/
def stripPrefixL : Str → Str → Option Str
  | l, [] => some l
  | [], _ :: _ => none
  | a :: as, b :: bs => if a = b then stripPrefixL as bs else none

/-- Expect one literal character. -/
def expectChar (c : Char) : Str → Option Str
  | x :: xs => if x = c then some xs else none
  | [] => none

/-- JavaScript `\w` word characters. -/
def isWordChar (c : Char) : Bool :=
  c.isAlpha || c.isDigit || c = '_'

/-- Numeric value of a list of decimal digits (most significant first). -/
def digitsToNat (ds : Str) : ℕ :=
  ds.foldl (fun acc c => acc * 10 + (c.toNat - '0'.toNat)) 0

/-- Decimal digit rendering with explicit fuel (so that it reduces by
kernel computation). -/
def natDigitsAux : ℕ → ℕ → Str
  | 0, _ => []
  | fuel + 1, n =>
    if n < 10 then [Char.ofNat (n + 48)]
    else natDigitsAux fuel (n / 10) ++ [Char.ofNat (n % 10 + 48)]

/-- Decimal digits of a natural number (most significant first). -/
def natDigits (n : ℕ) : Str := natDigitsAux (n + 1) n

theorem natDigitsAux_fuel : ∀ (f1 f2 n : ℕ), n < f1 → n < f2 →
    natDigitsAux f1 n = natDigitsAux f2 n := by
  intro f1
  induction f1 with
  | zero => intro f2 n h1; omega
  | succ f ih =>
    intro f2 n h1 h2
    match f2, h2 with
    | g + 1, _ =>
      simp only [natDigitsAux]
      by_cases h : n < 10
      · rw [if_pos h, if_pos h]
      · rw [if_neg h, if_neg h]
        have hd : n / 10 < n := Nat.div_lt_self (by omega) (by omega)
        rw [ih g (n / 10) (by omega) (by omega)]

theorem natDigits_unfold (n : ℕ) : natDigits n
    = if n < 10 then [Char.ofNat (n + 48)]
      else natDigits (n / 10) ++ [Char.ofNat (n % 10 + 48)] := by
  show natDigitsAux (n + 1) n = _
  rw [show natDigitsAux (n + 1) n
    = if n < 10 then [Char.ofNat (n + 48)]
      else natDigitsAux n (n / 10) ++ [Char.ofNat (n % 10 + 48)] from rfl]
  by_cases h : n < 10
  · rw [if_pos h, if_pos h]
  · rw [if_neg h, if_neg h]
    have hd : n / 10 < n := Nat.div_lt_self (by omega) (by omega)
    rw [natDigitsAux_fuel n (n / 10 + 1) (n / 10) (by omega) (by omega)]
    rfl

/-- Read a maximal nonempty run of decimal digits (`\d+` followed by a
non-digit or the end). -/
def readNat (l : Str) : Option (ℕ × Str) :=
  let ds := l.takeWhile Char.isDigit
  if ds.isEmpty then none else some (digitsToNat ds, l.dropWhile Char.isDigit)

/-- Read a maximal nonempty run of digits, keeping the digit characters. -/
def readDigits (l : Str) : Option (Str × Str) :=
  let ds := l.takeWhile Char.isDigit
  if ds.isEmpty then none else some (ds, l.dropWhile Char.isDigit)

/-- Read a maximal nonempty run of word characters (`\w+` followed by a
non-word character or the end). -/
def readWord (l : Str) : Option (Str × Str) :=
  let ws := l.takeWhile isWordChar
  if ws.isEmpty then none else some (ws, l.dropWhile isWordChar)

/-! ## Icon URL grammar (`parseIconUrl` of `src/utils/kmlUtils.js`) -/

/-- Captured groups of the legacy colored pattern
`color\/(\d+),(\d+),(\d+)\/([^\/]+)-(\d+)@(\d+)x\.png$`. -/
structure LegacyDefaultGroups where
  r : ℕ
  g : ℕ
  b : ℕ
  name : Str
  size : ℕ
  scale : ℕ
  deriving DecidableEq, Repr

/-- Captured groups of the legacy set pattern
`images\/(\w+)\/([^\/]+)\.png$`. -/
structure LegacySetGroups where
  set : Str
  name : Str
  deriving DecidableEq, Repr

/-- Captured groups of the current pattern
`api\/icons\/sets\/(\w+)\/icons\/(.+?)(@(\d+(\.\d+)?)x-(\d+),(\d+),(\d+))\.png`. -/
structure NewIconGroups where
  set : Str
  name : Str
  scale : Str
  r : ℕ
  g : ℕ
  b : ℕ
  deriving DecidableEq, Repr

/-- Parse the end-anchored tail `(name)-(size)@(scale)x\.png$` of the legacy
colored pattern, with `name` a nonempty run of non-`/` characters.  The
decomposition is unique (the digit run before `x.png` must be immediately
preceded by `@`, the digit run before that by `-`), so it is computed
deterministically from the end of the string. -/
def parseLegacyTail (l : Str) : Option (Str × ℕ × ℕ) := do
  let rev := l.reverse
  let rev ← stripPrefixL rev (strL "gnp.x")
  let (scaleDs, rev) ← readDigits rev
  let rev ← expectChar '@' rev
  let (sizeDs, rev) ← readDigits rev
  let rev ← expectChar '-' rev
  if rev.isEmpty || rev.any (· = '/') then none
  else
    some (rev.reverse, digitsToNat sizeDs.reverse, digitsToNat scaleDs.reverse)

/-- Try the legacy colored pattern at the current position (the pattern
must reach the end of the string). -/
def tryLegacyDefaultAt (l : Str) : Option LegacyDefaultGroups := do
  let l ← stripPrefixL l (strL "color/")
  let (r, l) ← readNat l
  let l ← expectChar ',' l
  let (g, l) ← readNat l
  let l ← expectChar ',' l
  let (b, l) ← readNat l
  let l ← expectChar '/' l
  let (name, size, scale) ← parseLegacyTail l
  pure ⟨r, g, b, name, size, scale⟩

/-- `exec` of the legacy colored regex: leftmost position at which the
pattern matches up to the end of the string. -/
def legacyDefaultMatchFn : Str → Option LegacyDefaultGroups
  | [] => none
  | c :: cs =>
    match tryLegacyDefaultAt (c :: cs) with
    | some groups => some groups
    | none => legacyDefaultMatchFn cs

/-- Try the legacy set pattern `images\/(\w+)\/([^\/]+)\.png$` at the
current position. -/
def tryLegacySetAt (l : Str) : Option LegacySetGroups := do
  let l ← stripPrefixL l (strL "images/")
  let (set, l) ← readWord l
  let l ← expectChar '/' l
  let rev := l.reverse
  let nameRev ← stripPrefixL rev (strL "gnp.")
  if nameRev.isEmpty || nameRev.any (· = '/') then none
  else pure ⟨set, nameRev.reverse⟩

/-- `exec` of the legacy set regex: leftmost matching position. -/
def legacySetMatchFn : Str → Option LegacySetGroups
  | [] => none
  | c :: cs =>
    match tryLegacySetAt (c :: cs) with
    | some groups => some groups
    | none => legacySetMatchFn cs

/-- Parse `@(\d+(\.\d+)?)x-(\d+),(\d+),(\d+)\.png` (trailing characters
allowed: the current pattern is not end-anchored). -/
def parseNewSuffix (l : Str) : Option (Str × ℕ × ℕ × ℕ) := do
  let l ← expectChar '@' l
  let (scaleInt, l) ← readDigits l
  let (scaleDs, l) ←
    match l with
    | '.' :: l' =>
      match readDigits l' with
      | some (frac, l'') => some (scaleInt ++ '.' :: frac, l'')
      | none => none
    | _ => some (scaleInt, l)
  let l ← expectChar 'x' l
  let l ← expectChar '-' l
  let (r, l) ← readNat l
  let l ← expectChar ',' l
  let (g, l) ← readNat l
  let l ← expectChar ',' l
  let (b, l) ← readNat l
  let _ ← stripPrefixL l (strL ".png")
  pure (scaleDs, r, g, b)

/-- The characters the ECMAScript `.` does not match: the line terminators
LINE FEED, CARRIAGE RETURN, LINE SEPARATOR and PARAGRAPH SEPARATOR. -/
def isLineTerminator (c : Char) : Bool :=
  c = '\n' || c = '\r' || c = '\u2028' || c = '\u2029'

/-- Lazy search for the `(.+?)` name group of the current pattern: the name
is the shortest nonempty prefix after which the `@…` suffix pattern
matches.  `.` matches any character except a line terminator, so the
search stops at one. -/
def newNameSearch (acc : Str) : Str → Option (Str × Str × ℕ × ℕ × ℕ)
  | [] => none
  | c :: rest =>
    if isLineTerminator c then none
    else
      match parseNewSuffix rest with
      | some (scale, r, g, b) => some ((c :: acc).reverse, scale, r, g, b)
      | none => newNameSearch (c :: acc) rest

/-- Try the current pattern
`api\/icons\/sets\/(\w+)\/icons\/(.+?)(@…)\.png` at the current position. -/
def tryNewIconAt (l : Str) : Option NewIconGroups := do
  let l ← stripPrefixL l (strL "api/icons/sets/")
  let (set, l) ← readWord l
  let l ← expectChar '/' l
  let l ← stripPrefixL l (strL "icons/")
  let (name, scale, r, g, b) ← newNameSearch [] l
  pure ⟨set, name, scale, r, g, b⟩

/-- `exec` of the current-pattern regex: leftmost matching position. -/
def newIconMatchFn : Str → Option NewIconGroups
  | [] => none
  | c :: cs =>
    match tryNewIconAt (c :: cs) with
    | some groups => some groups
    | none => newIconMatchFn cs

/-- An RGB channel value after validation: `parseRGBColor` yields the value
for small integers in `[0, 255]` and a reported validation failure
otherwise. -/
inductive RGBChannel where
  | value (v : ℕ)
  | invalid
  deriving DecidableEq, Repr

/-- Modelled from the spec: `parseRGBColor` of `src/utils/utils.js` is not
among the given sources; per the spec, color channel values are parsed as
small integers in `[0, 255]` and out-of-range values are a hard
input-validation failure for that channel (reported, not clamped). -/
def parseRGBColor (value : ℕ) : RGBChannel :=
  if value ≤ 255 then .value value else .invalid

/-- `IconColorArg` of `kmlUtils.js`. -/
structure IconColorArg where
  r : RGBChannel
  g : RGBChannel
  b : RGBChannel
  deriving DecidableEq, Repr

/-- `IconArgs` of `kmlUtils.js`. -/
structure IconArgs where
  set : Str
  name : Str
  color : IconColorArg
  isLegacy : Bool
  deriving DecidableEq, Repr

/-- The named groups shared by the three regexes, with `none` for a group
the matched pattern does not capture. -/
structure MatchGroups where
  set : Option Str
  name : Option Str
  r : Option ℕ
  g : Option ℕ
  b : Option ℕ

/-- Groups view of a legacy colored match. -/
def LegacyDefaultGroups.toGroups (m : LegacyDefaultGroups) : MatchGroups :=
  ⟨none, some m.name, some m.r, some m.g, some m.b⟩

/-- Groups view of a legacy set match. -/
def LegacySetGroups.toGroups (m : LegacySetGroups) : MatchGroups :=
  ⟨some m.set, some m.name, none, none, none⟩

/-- Groups view of a current-pattern match. -/
def NewIconGroups.toGroups (m : NewIconGroups) : MatchGroups :=
  ⟨some m.set, some m.name, some m.r, some m.g, some m.b⟩

/-- `parseIconUrl` of `kmlUtils.js`: try the legacy colored pattern, then
the legacy set pattern, then the current pattern (`??` chain); `null` when
none matches; otherwise build `IconArgs` with defaults `set = "default"`,
`name = "unknown"`, color `255,0,0`, and `isLegacy` true iff one of the two
legacy patterns matched. -/
def parseIconUrl (url : Str) : Option IconArgs :=
  let legacyDefaultMatch := legacyDefaultMatchFn url
  let legacySetMatch := legacySetMatchFn url
  let setMatch := newIconMatchFn url
  let matchResult : Option MatchGroups :=
    match legacyDefaultMatch with
    | some m => some m.toGroups
    | none =>
      match legacySetMatch with
      | some m => some m.toGroups
      | none => setMatch.map NewIconGroups.toGroups
  match matchResult with
  | none => none
  | some groups =>
    let setName := groups.set.getD (strL "default")
    let name := groups.name.getD (strL "unknown")
    let isLegacy := legacyDefaultMatch.isSome || legacySetMatch.isSome
    some ⟨setName, name,
      ⟨parseRGBColor (groups.r.getD 255), parseRGBColor (groups.g.getD 0),
        parseRGBColor (groups.b.getD 0)⟩, isLegacy⟩

/-! ## OpenLayers feature and style model

The OL KML reader and style objects are external collaborators; the fields
below model exactly the accessors the sources call (`getText`, `getImage`,
`getStroke`, `getFill`, `getScale`, `getSrc`, `getSize`, `getAnchor`,
`getCoordinates`, `getType`, `get('…')`, `getId`). -/

/-- A planar coordinate. -/
abbrev Coord := ℚ × ℚ

/-- An RGB color as stored in an OL style. -/
abbrev RGB := ℕ × ℕ × ℕ

/-- An OL geometry, with a `multiPoint` representative for the geometry
kinds the sources treat as "other". -/
inductive OlGeometry where
  | point (coordinate : Coord)
  | lineString (coordinates : List Coord)
  | polygon (rings : List (List Coord))
  | multiPoint (coordinates : List Coord)
  deriving DecidableEq, Repr

/-- `geometry.getType()`. -/
def OlGeometry.getType : OlGeometry → Str
  | .point _ => strL "Point"
  | .lineString _ => strL "LineString"
  | .polygon _ => strL "Polygon"
  | .multiPoint _ => strL "MultiPoint"

/-- The heterogeneous value of `geometry.getCoordinates()`; `undef` models
the JavaScript `undefined` produced by indexing an empty array. -/
inductive OlCoordinates where
  | single (c : Coord)
  | list (cs : List Coord)
  | nested (css : List (List Coord))
  | undef
  deriving DecidableEq, Repr

/-- `geometry.getCoordinates()`. -/
def OlGeometry.getCoordinates : OlGeometry → OlCoordinates
  | .point c => .single c
  | .lineString cs => .list cs
  | .polygon rings => .nested rings
  | .multiPoint cs => .list cs

/-- An OL `Icon` image style (`ol/style/Icon`): `getSrc`/`getSize`/
`getAnchor` may be absent (e.g. before the image loads), `getScale` is a
number. -/
structure OlIconStyle where
  src : Option Str
  size : Option (ℚ × ℚ)
  anchor : Option Coord
  scale : ℚ
  deriving DecidableEq, Repr

/-- `style.getImage()`: an `Icon` instance or some other image style
(which `getIconStyle` rejects via its `instanceof IconStyle` check). -/
inductive OlImageStyle where
  | icon (iconStyle : OlIconStyle)
  | otherImage (scale : ℚ)
  deriving DecidableEq, Repr

/-- `image.getScale()`. -/
def OlImageStyle.getScale : OlImageStyle → ℚ
  | .icon i => i.scale
  | .otherImage s => s

/-- `style.getText()`: text scale and text fill color, each possibly
absent. -/
structure OlTextStyle where
  scale : Option ℚ
  fillColor : Option RGB
  deriving DecidableEq, Repr

/-- An OL `Style` with the four sub-objects the sources probe. -/
structure OlStyle where
  text : Option OlTextStyle
  image : Option OlImageStyle
  stroke : Option RGB
  fill : Option RGB
  deriving DecidableEq, Repr

/-- An OL KML feature: properties (`type`, `name`, `description`), id,
geometry, and the style the KML reader attached. -/
structure OlFeature where
  id : Option Str
  typeProp : Option Str
  name : Option Str
  description : Option Str
  geometry : OlGeometry
  style : Option OlStyle
  deriving DecidableEq, Repr

/-- Default text scale of the OL KML reader (`getDefaultStyle()` of
`ol/format/KML`): the reader substitutes scale 0.8 when the document omits
the property — an external library constant. -/
def olDefaultTextScale : ℚ := 0.8

/-- Icon source of the OL KML reader default style (the Google pushpin the
reader auto-inserts) — an external library constant. -/
def olDefaultIconSrc : Str :=
  strL "https://maps.google.com/mapfiles/kml/pushpin/ylw-pushpin.png"

/-- Modelled from the spec: `getStyle` of `src/utils/featureStyleUtils.js`
is not among the given sources; it resolves the style the KML parser
attached to the feature, `null` when the feature has no resolvable
style. -/
def getStyle (feature : OlFeature) : Option OlStyle := feature.style

/-- `EditableFeatureTypes` of `EditableFeature.class`: the four feature
types. -/
inductive EditableFeatureTypes where
  | MARKER
  | ANNOTATION
  | LINEPOLYGON
  | MEASURE
  deriving DecidableEq, Repr

/-- `Object.values(EditableFeatureTypes).includes` membership, as a partial
string decoding. -/
def featureTypeOfString (s : Str) : Option EditableFeatureTypes :=
  if s = strL "MARKER" then some .MARKER
  else if s = strL "ANNOTATION" then some .ANNOTATION
  else if s = strL "LINEPOLYGON" then some .LINEPOLYGON
  else if s = strL "MEASURE" then some .MEASURE
  else none

/-- `getFeatureType` of `kmlUtils.js`: take the geoadmin `type` property
(uppercased) when it is a known type; otherwise guess from geometry and
style: a `Point` with a positively scaled image is a MARKER, a `Point`
without one an ANNOTATION, `LineString` and `Polygon` are LINEPOLYGON, and
any other geometry kind falls back to MARKER. -/
def getFeatureType (kmlFeature : OlFeature) : EditableFeatureTypes :=
  let featureType := kmlFeature.typeProp.map (fun s => s.map Char.toUpper)
  match featureType.bind featureTypeOfString with
  | some t => t
  | none =>
    let style := getStyle kmlFeature
    if kmlFeature.geometry.getType = strL "Point" then
      match style.bind (fun s => s.image) with
      | some image => if 0 < image.getScale then .MARKER else .ANNOTATION
      | none => .ANNOTATION
    else if kmlFeature.geometry.getType = strL "LineString" then .LINEPOLYGON
    else if kmlFeature.geometry.getType = strL "Polygon" then .LINEPOLYGON
    else .MARKER

/-- `getTextScale` of `kmlUtils.js`: the style's text scale, with the OL
KML reader's implicit default scale mapped back to 1 (compatibility shim);
`null` when the style carries no text scale. -/
def getTextScale (style : OlStyle) : Option ℚ :=
  let textScale := style.text.bind (fun t => t.scale)
  if textScale = some olDefaultTextScale then some 1
  else textScale

/-- `getIconStyle` of `kmlUtils.js`: the style's image if it is an `Icon`
whose source is neither a Google url (reader-injected placeholder) nor the
reader's default icon source; `null` otherwise. -/
def getIconStyle (style : OlStyle) : Option OlIconStyle :=
  match style.image with
  | some (.icon icon) =>
    if (match icon.src with
        | some s => containsSubL s (strL "google")
        | none => false)
        || icon.src = some olDefaultIconSrc then none
    else some icon
  | _ => none

/-! ## Style normalizer constants (modelled from the spec)

`featureStyleUtils.js` is not among the given sources; its exports used by
`kmlUtils.js` (`getFeatureStyleColor`, `getTextColor`, `getTextSize`,
`allStylingSizes`, `RED`, `SMALL`) are modelled from the spec. -/

/-- Modelled from the spec: a feature style color — "a small enum/struct
resolved from style". -/
structure FeatureStyleColor where
  r : RGBChannel
  g : RGBChannel
  b : RGBChannel
  deriving DecidableEq, Repr

/-- The fixed default fill color (red). -/
def RED : FeatureStyleColor := ⟨.value 255, .value 0, .value 0⟩

/-- Modelled from the spec: `getFeatureStyleColor` resolves an RGB triple
coming from a style or from icon arguments into a `FeatureStyleColor`. -/
def getFeatureStyleColor (c : IconColorArg) : FeatureStyleColor :=
  ⟨c.r, c.g, c.b⟩

/-- Exact RGB channels of a style color (stroke/fill colors are concrete
numbers). -/
def rgbArgs (c : RGB) : IconColorArg :=
  ⟨.value c.1, .value c.2.1, .value c.2.2⟩

/-- Modelled from the spec: a feature style size preset of the fixed
table. -/
structure FeatureStyleSize where
  sizeName : Str
  textScale : ℚ
  iconScale : ℚ
  deriving DecidableEq, Repr

/-- The SMALL size preset (default; representative scale values — the spec
fixes the table's existence and the SMALL default, not the numbers). -/
def SMALL : FeatureStyleSize := ⟨strL "small", 1, 0.5⟩

/-- The MEDIUM size preset. -/
def MEDIUM : FeatureStyleSize := ⟨strL "medium", 1.5, 0.75⟩

/-- The LARGE size preset. -/
def LARGE : FeatureStyleSize := ⟨strL "large", 2, 1⟩

/-- Modelled from the spec: the fixed table of known size presets. -/
def allStylingSizes : List FeatureStyleSize := [SMALL, MEDIUM, LARGE]

/-- Modelled from the spec: `getTextSize` matches a text scale against the
fixed preset table, defaulting to SMALL, and is never `null`. -/
def getTextSize (textScale : Option ℚ) : FeatureStyleSize :=
  match textScale with
  | some scale =>
    ((allStylingSizes.find? (fun size => size.textScale = scale)).getD SMALL)
  | none => SMALL

/-- Modelled from the spec: `getTextColor` resolves the text color from the
style's text fill, defaulting to the fixed default color, and is never
`null`. -/
def getTextColor (style : OlStyle) : FeatureStyleColor :=
  match style.text.bind (fun t => t.fillColor) with
  | some c => getFeatureStyleColor (rgbArgs c)
  | none => RED

/-! ## Icon resolution (`kmlUtils.js`) -/

/-- `DrawingIcon` of `src/api/icon.api.js` (not among the given sources),
modelled from the spec: set name, icon name, rendering URLs and anchor
point.  The anchor may carry IEEE special values, hence `JsNum`. -/
structure DrawingIcon where
  name : Str
  imageURL : Str
  imageTemplateURL : Str
  iconSetName : Str
  anchor : JsNum × JsNum
  deriving DecidableEq, Repr

/-- A `DrawingIconSet` of the icon catalog. -/
structure DrawingIconSet where
  name : Str
  icons : List DrawingIcon
  deriving DecidableEq, Repr

/-- `generateIconFromStyle` of `kmlUtils.js`: build a `DrawingIcon` from
the OL icon style and the parsed icon arguments.  The anchor becomes the
element-wise JavaScript division `anchor[i] / size[i]` when both `anchor`
and `size` are present (division by a zero size component yields an IEEE
special value, not an exception); when either is absent, the property
access throws, the `catch` logs and the anchor falls back to `[0, 0]`.
The icon is `null` when the style has a falsy `src`. -/
def generateIconFromStyle (iconStyle : Option OlIconStyle)
    (iconArgs : Option IconArgs) : Option DrawingIcon :=
  match iconStyle, iconArgs with
  | some iconStyle, some iconArgs =>
    let url := iconStyle.src
    let size := iconStyle.size
    let anchor : JsNum × JsNum :=
      match iconStyle.anchor, size with
      | some a, some s => (jsDiv a.1 s.1, jsDiv a.2 s.2)
      | _, _ => (.num 0, .num 0)
    match url with
    | some u =>
      if u ≠ [] then some ⟨iconArgs.name, u, u, iconArgs.set, anchor⟩
      else none
    | none => none
  | _, _ => none

/-- The name test of `getIcon`: `new RegExp('^' + namePrefix + name + '$')`
with `namePrefix = '(\d+-)?'` for legacy icons.  A candidate matches when
it equals the name, or (legacy only) equals the name preceded by a nonempty
digit run and a dash — the digit run is necessarily the candidate's maximal
digit prefix, since a digit run cannot contain the dash that must follow
it. -/
def iconNameMatches (isLegacy : Bool) (name candidate : Str) : Bool :=
  if isLegacy then
    candidate = name
      || (let digitPrefix := candidate.takeWhile Char.isDigit
          !digitPrefix.isEmpty
            && candidate.dropWhile Char.isDigit = '-' :: name)
  else candidate = name

/-- `getIcon` of `kmlUtils.js`: resolve the parsed icon arguments against
the icon-set catalog, falling back to `generateIconFromStyle` when the
catalog is absent, the set is unknown, or no icon name matches. -/
def getIcon (iconArgs : Option IconArgs) (iconStyle : Option OlIconStyle)
    (availableIconSets : Option (List DrawingIconSet)) : Option DrawingIcon :=
  match iconArgs with
  | none => none
  | some iconArgs =>
    match availableIconSets with
    | none => generateIconFromStyle iconStyle (some iconArgs)
    | some sets =>
      match sets.find? (fun drawingIconSet => drawingIconSet.name = iconArgs.set) with
      | none => generateIconFromStyle iconStyle (some iconArgs)
      | some iconSet =>
        match iconSet.icons.find?
            (fun drawingIcon =>
              iconNameMatches iconArgs.isLegacy iconArgs.name drawingIcon.name) with
        | none => generateIconFromStyle iconStyle (some iconArgs)
        | some icon => some icon

/-- `getIconSize` of `kmlUtils.js`: match the icon scale against the fixed
preset table, defaulting to SMALL (also for a falsy zero scale). -/
def getIconSize (iconStyle : OlIconStyle) : FeatureStyleSize :=
  let iconScale := iconStyle.scale
  if iconScale ≠ 0 then
    (allStylingSizes.find? (fun size => size.iconScale = iconScale)).getD SMALL
  else SMALL

/-- `getFillColor` of `kmlUtils.js`: icon color for a point with icon
arguments; else stroke color for a line or point with a stroke; else fill
color for a polygon with a fill; else the default red. -/
def getFillColor (style : OlStyle) (geometryType : Str)
    (iconArgs : Option IconArgs) : FeatureStyleColor :=
  if geometryType = strL "Point" && iconArgs.isSome then
    match iconArgs with
    | some args => getFeatureStyleColor ⟨args.color.r, args.color.g, args.color.b⟩
    | none => RED
  else if (geometryType = strL "LineString" || geometryType = strL "Point")
      && style.stroke.isSome then
    match style.stroke with
    | some strokeColor => getFeatureStyleColor (rgbArgs strokeColor)
    | none => RED
  else if geometryType = strL "Polygon" && style.fill.isSome then
    match style.fill with
    | some fillColor => getFeatureStyleColor (rgbArgs fillColor)
    | none => RED
  else RED

/-- `getKmlFeatureCoordinates` of `kmlUtils.js`: the geometry's native
coordinate structure, except that for a Polygon only the first ring is
kept (`coordinates[0]`; JavaScript indexing of an empty array gives
`undefined`). -/
def getKmlFeatureCoordinates (feature : OlFeature) : OlCoordinates :=
  let coordinates := feature.geometry.getCoordinates
  if feature.geometry.getType = strL "Polygon" then
    match coordinates with
    | .nested rings =>
      match rings with
      | [] => .undef
      | ring0 :: _ => .list ring0
    | c => c
  else coordinates

/-! ## Feature deserialization (`getEditableFeatureFromKmlFeature`) -/

/-- `LEGACY_ICON_XML_SCALE_FACTOR` of `kmlUtils.js`: 48px legacy baseline
over the 32px OL normalization. -/
def LEGACY_ICON_XML_SCALE_FACTOR : ℚ := 1.5

/-- `EditableFeature` record (the class itself lives in
`EditableFeature.class.js`, not among the given sources; the record is
modelled from the spec's data model, with the nullable fields optional). -/
structure EditableFeature where
  id : Option Str
  featureType : Option EditableFeatureTypes
  title : Str
  description : Str
  coordinates : OlCoordinates
  geometry : OlGeometry
  textColor : Option FeatureStyleColor
  textSize : Option FeatureStyleSize
  fillColor : Option FeatureStyleColor
  icon : Option DrawingIcon
  iconSize : Option FeatureStyleSize
  deriving DecidableEq, Repr

/-- A JavaScript runtime exception. -/
inductive JsError where
  | typeError
  deriving DecidableEq, Repr

/-- An argument passed to `getEditableFeatureFromKmlFeature`: a genuine OL
`Feature`, an object that supports the feature accessors but is not an
`instanceof Feature`, or a value (such as `null` or a plain object) on
which the property accesses of `getFeatureType` throw. -/
inductive KmlInput where
  | olFeature (f : OlFeature)
  | duckFeature (f : OlFeature)
  | notAFeatureObject
  deriving DecidableEq, Repr

/-- `getFeatureType` lifted to arbitrary inputs: the source calls
`kmlFeature.get('type')` and `kmlFeature.getGeometry()` before any
structural check, so a value without these methods throws a `TypeError`. -/
def getFeatureTypeOnInput : KmlInput → Except JsError EditableFeatureTypes
  | .olFeature f => .ok (getFeatureType f)
  | .duckFeature f => .ok (getFeatureType f)
  | .notAFeatureObject => .error .typeError

/-- `getEditableFeatureFromKmlFeature` of `kmlUtils.js`.  The result is
`Except`: `.error` models a thrown exception, `.ok none` the `null`
returns (non-`Feature` input caught by the `instanceof` check, or no
resolvable style), `.ok (some _)` a deserialized feature.  Note the source
computes `getFeatureType(kmlFeature)` before the `instanceof Feature`
check. -/
def getEditableFeatureFromKmlFeature (kmlFeature : KmlInput)
    (availableIconSets : Option (List DrawingIconSet)) :
    Except JsError (Option EditableFeature) := do
  let featureType ← getFeatureTypeOnInput kmlFeature
  match kmlFeature with
  | .notAFeatureObject => .error .typeError
  | .duckFeature _ => .ok none
  | .olFeature f =>
    match getStyle f with
    | none => .ok none
    | some style =>
      let featureId := f.id
      let title := (f.name).getD []
      let textScale := getTextScale style
      let textSize := getTextSize textScale
      let textColor := getTextColor style
      let description := (f.description).getD []
      let iconStyle := getIconStyle style
      -- `parseIconUrl(iconStyle.getSrc())`: a missing src is the JavaScript
      -- `undefined`, which the regexes coerce to the string "undefined"
      let iconArgs := iconStyle.bind
        (fun s => parseIconUrl (s.src.getD (strL "undefined")))
      -- `iconStyle.setScale(iconStyle.getScale() * 1.5)` for legacy icons
      let iconStyle :=
        match iconStyle, iconArgs with
        | some s, some args =>
          if args.isLegacy then
            some { s with scale := s.scale * LEGACY_ICON_XML_SCALE_FACTOR }
          else some s
        | s, _ => s
      let icon :=
        match iconArgs with
        | some args => getIcon (some args) iconStyle availableIconSets
        | none => none
      let iconSize := iconStyle.map getIconSize
      let fillColor := getFillColor style f.geometry.getType iconArgs
      let geometry := f.geometry
      let coordinates := getKmlFeatureCoordinates f
      .ok (some
        { id := featureId
          featureType := some featureType
          title := title
          description := description
          coordinates := coordinates
          geometry := geometry
          textColor := some textColor
          textSize := some textSize
          fillColor := some fillColor
          icon := icon
          iconSize := iconSize })

/-! ## Extents (`ol/extent` semantics, used by `getKmlExtent`) -/

/-- A coordinate bound: a rational or one of the infinities of the empty
extent `[Infinity, Infinity, -Infinity, -Infinity]`. -/
inductive QInf where
  | fin (q : ℚ)
  | posInf
  | negInf
  deriving DecidableEq, Repr

/-- JavaScript `<` on extent bounds. -/
def qiLt : QInf → QInf → Bool
  | .fin a, .fin b => a < b
  | .fin _, .posInf => true
  | .fin _, .negInf => false
  | .negInf, .fin _ => true
  | .negInf, .posInf => true
  | .negInf, .negInf => false
  | .posInf, _ => false

/-- An OL extent `[minX, minY, maxX, maxY]`. -/
structure OlExtent where
  minX : QInf
  minY : QInf
  maxX : QInf
  maxY : QInf
  deriving DecidableEq, Repr

/-- `createEmpty` of `ol/extent`. -/
def createEmpty : OlExtent := ⟨.posInf, .posInf, .negInf, .negInf⟩

/-- `extend` of `ol/extent`: component-wise widening. -/
def extendExtent (extent1 extent2 : OlExtent) : OlExtent :=
  ⟨if qiLt extent2.minX extent1.minX then extent2.minX else extent1.minX,
    if qiLt extent2.minY extent1.minY then extent2.minY else extent1.minY,
    if qiLt extent1.maxX extent2.maxX then extent2.maxX else extent1.maxX,
    if qiLt extent1.maxY extent2.maxY then extent2.maxY else extent1.maxY⟩

/-- `isEmpty` of `ol/extent`: `maxX < minX || maxY < minY`. -/
def isExtentEmpty (extent : OlExtent) : Bool :=
  qiLt extent.maxX extent.minX || qiLt extent.maxY extent.minY

/-- All coordinates of a geometry, for extent computation. -/
def OlGeometry.allCoords : OlGeometry → List Coord
  | .point c => [c]
  | .lineString cs => cs
  | .polygon rings => rings.flatten
  | .multiPoint cs => cs

/-- `geometry.getExtent()`: the bounding box of the geometry's coordinates
(`createOrUpdateFromCoordinates` of `ol/extent`); the empty extent for a
geometry without coordinates. -/
def geometryExtent (g : OlGeometry) : OlExtent :=
  g.allCoords.foldl
    (fun extent c => extendExtent extent ⟨.fin c.1, .fin c.2, .fin c.1, .fin c.2⟩)
    createEmpty

/-- `getKmlExtent` of `kmlUtils.js`, over the feature list the OL KML
reader yields for the content: extend an empty extent with every feature's
geometry extent; `null` when the result is empty. -/
def getKmlExtent (features : List OlFeature) : Option OlExtent :=
  let extent := features.foldl
    (fun extent feature => extendExtent extent (geometryExtent feature.geometry))
    createEmpty
  if isExtentEmpty extent then none else some extent

/-! ## File sniffing and `handleFileContent`
(`addPrimitiveLayer-mixins.js`) -/

/-- Does the closing-tag pattern (tag prefix, then `\s*`, then `>`) match
at this position? -/
def closingTagAt (tagPrefix l : Str) : Bool :=
  match stripPrefixL l tagPrefix with
  | some rest =>
    match rest.dropWhile Char.isWhitespace with
    | '>' :: _ => true
    | _ => false
  | none => false

/-- `/<\/tag\s*>/.test(content)`: does the closing-tag pattern occur
anywhere? -/
def containsClosingTag (tagPrefix : Str) : Str → Bool
  | [] => false
  | c :: cs => closingTagAt tagPrefix (c :: cs) || containsClosingTag tagPrefix cs

/-- `isKml`: `/<kml/.test(content) && /<\/kml\s*>/.test(content)`. -/
def isKml (fileContent : Str) : Bool :=
  containsSubL fileContent (strL "<kml")
    && containsClosingTag (strL "</kml") fileContent

/-- `isGpx`: `/<gpx/.test(content) && /<\/gpx\s*>/.test(content)`. -/
def isGpx (fileContent : Str) : Bool :=
  containsSubL fileContent (strL "<gpx")
    && containsClosingTag (strL "</gpx") fileContent

/-- A file content value: the raw text (for the sniffers) together with
the feature list that the external OL KML reader yields for it. -/
structure FileContent where
  raw : Str
  kmlFeatures : List OlFeature
  deriving DecidableEq, Repr

/-- A layer constructed by `handleFileContent` (`KMLLayer` / `GPXLayer`
classes are external to the given sources). -/
inductive BuiltLayer where
  | kmlLayer (source : Str) (content : Str)
  | gpxLayer (source : Str)
  deriving DecidableEq, Repr

/-- The errors `handleFileContent` can throw. -/
inductive HandleFileError where
  | emptyKml
  | outOfBounds
  | unsupportedContent
  deriving DecidableEq, Repr

/-- `handleFileContent` of `addPrimitiveLayer-mixins.js`.  `projFn` models
the external `getExtentForProjection` (reprojection and bounds check,
`null` out of bounds).  The result carries the thrown error or the
returned layer, together with the list of layers constructed during the
call (the KML branch constructs its layer before the extent checks).  The
GPX branch is only reached when `isKml` is false. -/
def handleFileContent (content : FileContent) (source : Str)
    (projFn : OlExtent → Option OlExtent) :
    Except HandleFileError BuiltLayer × List BuiltLayer :=
  if isKml content.raw then
    let layer := BuiltLayer.kmlLayer source content.raw
    match getKmlExtent content.kmlFeatures with
    | none => (.error .emptyKml, [layer])
    | some extent =>
      match projFn extent with
      | none => (.error .outOfBounds, [layer])
      | some projectedExtent =>
        let _ := projectedExtent
        (.ok layer, [layer])
  else if isGpx content.raw then
    let layer := BuiltLayer.gpxLayer source
    (.ok layer, [layer])
  else (.error .unsupportedContent, [])

/-! ## Theorems about coordinate extraction and file handling -/

/-- Length view of a coordinate structure (defined only for ring/line
lists). -/
def OlCoordinates.listLength : OlCoordinates → Option ℕ
  | .list cs => some cs.length
  | _ => none

/-- C9: for a feature whose geometry is a Polygon with at least one ring,
`getKmlFeatureCoordinates` returns exactly ring 0's coordinate list, of
length equal to ring 0's vertex count, independently of the number of
rings; for a feature of any other geometry kind it returns the geometry's
native coordinate structure unchanged. -/
theorem getKmlFeatureCoordinates_first_ring :
    (∀ (f : OlFeature) (ring0 : List Coord) (rings : List (List Coord)),
      f.geometry = .polygon (ring0 :: rings) →
      getKmlFeatureCoordinates f = .list ring0
        ∧ (getKmlFeatureCoordinates f).listLength = some ring0.length)
    ∧ (∀ f : OlFeature, (∀ rings, f.geometry ≠ .polygon rings) →
      getKmlFeatureCoordinates f = f.geometry.getCoordinates) := by
  constructor
  · intro f ring0 rings h
    have : getKmlFeatureCoordinates f = .list ring0 := by
      unfold getKmlFeatureCoordinates
      rw [h]
      simp [OlGeometry.getType, OlGeometry.getCoordinates]
    exact ⟨this, by rw [this]; rfl⟩
  · intro f h
    unfold getKmlFeatureCoordinates
    match hg : f.geometry with
    | .point c => simp [OlGeometry.getType, strL]
    | .lineString cs => simp [OlGeometry.getType, strL]
    | .multiPoint cs => simp [OlGeometry.getType, strL]
    | .polygon rings => exact absurd hg (h rings)

/-- Witness for C9 on a two-ring polygon and a line string. -/
theorem getKmlFeatureCoordinates_first_ring_witness :
    getKmlFeatureCoordinates
        ⟨none, none, none, none,
          .polygon [[(0, 0), (1, 0), (1, 1)], [(2, 2), (3, 3)]], none⟩
      = .list [(0, 0), (1, 0), (1, 1)]
    ∧ getKmlFeatureCoordinates
        ⟨none, none, none, none, .lineString [(0, 0), (5, 5)], none⟩
      = .list [(0, 0), (5, 5)] := by
  refine ⟨(getKmlFeatureCoordinates_first_ring.1 _ _ _ rfl).1, ?_⟩
  have := getKmlFeatureCoordinates_first_ring.2
    ⟨none, none, none, none, .lineString [(0, 0), (5, 5)], none⟩
    (by intro rings h; simp at h)
  rw [this]
  rfl

/-- C10: when both `isKml` and `isGpx` accept a content, `handleFileContent`
takes the KML branch: the only layer it constructs is a `KMLLayer`, and
whatever it returns (rather than throws) is that `KMLLayer`; a `GPXLayer`
is never built. -/
theorem handleFileContent_kml_precedence (content : FileContent) (source : Str)
    (projFn : OlExtent → Option OlExtent)
    (h1 : isKml content.raw = true) (h2 : isGpx content.raw = true) :
    (handleFileContent content source projFn).2
        = [BuiltLayer.kmlLayer source content.raw]
      ∧ ∀ layer, (handleFileContent content source projFn).1 = .ok layer →
          layer = BuiltLayer.kmlLayer source content.raw := by
  have hgpx := h2
  constructor
  · rcases hE : getKmlExtent content.kmlFeatures with _ | extent
    · simp [handleFileContent, h1, hE]
    · rcases hP : projFn extent with _ | proj
      · simp [handleFileContent, h1, hE, hP]
      · simp [handleFileContent, h1, hE, hP]
  · intro layer h
    rcases hE : getKmlExtent content.kmlFeatures with _ | extent
    · simp [handleFileContent, h1, hE] at h
    · rcases hP : projFn extent with _ | proj
      · simp [handleFileContent, h1, hE, hP] at h
      · simp [handleFileContent, h1, hE, hP] at h
        exact h.symm

/-- Witness for C10 on a content both sniffers accept. -/
theorem handleFileContent_kml_precedence_witness :
    (handleFileContent
        ⟨strL "<kml></kml><gpx></gpx>", [⟨none, none, none, none, .point (1, 2), none⟩]⟩
        (strL "file.kml") (fun e => some e)).2
      = [BuiltLayer.kmlLayer (strL "file.kml") (strL "<kml></kml><gpx></gpx>")] :=
  (handleFileContent_kml_precedence
    ⟨strL "<kml></kml><gpx></gpx>", [⟨none, none, none, none, .point (1, 2), none⟩]⟩
    (strL "file.kml") (fun e => some e) (by decide) (by decide)).1

/-- C4 (evaluation at the failing input): on an argument that is not a
structurally valid feature object (e.g. `null` or a plain object),
`getEditableFeatureFromKmlFeature` throws a `TypeError` — `getFeatureType`
dereferences the argument before the `instanceof Feature` guard — instead
of returning `null` as the claim (and the function's own guard and doc)
state. -/
theorem getEditableFeatureFromKmlFeature_throws_on_invalid_input :
    getEditableFeatureFromKmlFeature KmlInput.notAFeatureObject none
      = .error .typeError := rfl

/-! ## Theorems about `generateIconFromStyle` (C5) -/

/-- C5 (amended): when the icon style has a truthy source, the synthesized
icon's anchor is the element-wise JavaScript division
`[anchor[0]/size[0], anchor[1]/size[1]]` whenever both `anchor` and `size`
are present — for a zero size component this is an IEEE special value, not
`[0, 0]` — and the `[0, 0]` fallback occurs exactly when `anchor` or
`size` is absent (where the property access throws and is caught). -/
theorem generateIconFromStyle_anchor_characterization
    (s : OlIconStyle) (args : IconArgs) (u : Str)
    (hu : s.src = some u) (hne : u ≠ []) :
    (∀ a sz, s.anchor = some a → s.size = some sz →
      generateIconFromStyle (some s) (some args)
        = some ⟨args.name, u, u, args.set, (jsDiv a.1 sz.1, jsDiv a.2 sz.2)⟩)
    ∧ ((s.anchor = none ∨ s.size = none) →
      generateIconFromStyle (some s) (some args)
        = some ⟨args.name, u, u, args.set, (.num 0, .num 0)⟩) := by
  constructor
  · intro a sz ha hsz
    simp only [generateIconFromStyle]
    rw [ha, hsz, hu]
    simp [hne]
  · intro h
    simp only [generateIconFromStyle]
    rw [hu]
    rcases h with h | h
    · rw [h]
      rcases hsz : s.size with _ | sz <;> simp [hne]
    · rw [h]
      rcases ha : s.anchor with _ | a <;> simp [hne]

/-- Icon arguments used by the C5 concrete evaluations. -/
def c5Args : IconArgs :=
  ⟨strL "default", strL "icon", ⟨.value 255, .value 0, .value 0⟩, false⟩

/-- Counterexample to C5 as stated: an icon style with the degenerate pixel
size `[0, 0]` and anchor `[8, 8]` produces the anchor
`[Infinity, Infinity]` (JavaScript division by zero does not throw), not
the claimed fallback `[0, 0]`. -/
theorem generateIconFromStyle_zero_size_counterexample :
    (generateIconFromStyle
        (some ⟨some (strL "https://example.com/icon.png"), some (0, 0), some (8, 8), 1⟩)
        (some c5Args)).map DrawingIcon.anchor
      = some (JsNum.posInf, JsNum.posInf)
    ∧ (generateIconFromStyle
        (some ⟨some (strL "https://example.com/icon.png"), some (0, 0), some (8, 8), 1⟩)
        (some c5Args)).map DrawingIcon.anchor
      ≠ some (JsNum.num 0, JsNum.num 0) := by
  constructor
  · rfl
  · decide

/-- Witness for the amended C5 at a loaded icon with a nondegenerate size
and at one with an absent size. -/
theorem generateIconFromStyle_anchor_witness :
    generateIconFromStyle
        (some ⟨some (strL "https://example.com/icon.png"), some (2, 4), some (1, 1), 1⟩)
        (some c5Args)
      = some ⟨c5Args.name, strL "https://example.com/icon.png",
          strL "https://example.com/icon.png", c5Args.set, (jsDiv 1 2, jsDiv 1 4)⟩
    ∧ generateIconFromStyle
        (some ⟨some (strL "https://example.com/icon.png"), none, some (1, 1), 1⟩)
        (some c5Args)
      = some ⟨c5Args.name, strL "https://example.com/icon.png",
          strL "https://example.com/icon.png", c5Args.set, (.num 0, .num 0)⟩ := by
  constructor
  · exact (generateIconFromStyle_anchor_characterization
      ⟨some (strL "https://example.com/icon.png"), some (2, 4), some (1, 1), 1⟩
      c5Args (strL "https://example.com/icon.png") rfl (by decide)).1
      (1, 1) (2, 4) rfl rfl
  · exact (generateIconFromStyle_anchor_characterization
      ⟨some (strL "https://example.com/icon.png"), none, some (1, 1), 1⟩
      c5Args (strL "https://example.com/icon.png") rfl (by decide)).2
      (Or.inr rfl)

/-! ## Theorems about the `EditableFeature` field invariant (C2) -/

/-- C2 (amended): every successfully parsed feature has non-null
`featureType`, `fillColor`, `textColor` and `textSize`, and whenever `icon`
is non-null so is `iconSize`; the converse fails — `iconSize` can be
non-null with a null `icon` (see the counterexample with an unrecognized
icon URL). -/
theorem getEditableFeatureFromKmlFeature_field_invariant
    (input : KmlInput) (sets : Option (List DrawingIconSet)) (ef : EditableFeature)
    (h : getEditableFeatureFromKmlFeature input sets = .ok (some ef)) :
    ef.featureType.isSome ∧ ef.fillColor.isSome ∧ ef.textColor.isSome
      ∧ ef.textSize.isSome ∧ (ef.icon.isSome → ef.iconSize.isSome) := by
  match input with
  | .notAFeatureObject =>
    simp [getEditableFeatureFromKmlFeature, getFeatureTypeOnInput,
      Bind.bind, Except.bind] at h
  | .duckFeature f =>
    simp [getEditableFeatureFromKmlFeature, getFeatureTypeOnInput,
      Bind.bind, Except.bind] at h
  | .olFeature f =>
    rcases hs : f.style with _ | style
    · simp [getEditableFeatureFromKmlFeature, getFeatureTypeOnInput, getStyle,
        hs, Bind.bind, Except.bind] at h
    · rcases hIS : getIconStyle style with _ | iconSty
      · simp [getEditableFeatureFromKmlFeature, getFeatureTypeOnInput, getStyle,
          hs, hIS, Bind.bind, Except.bind] at h
        rw [← h]
        simp
      · rcases hIA : parseIconUrl (iconSty.src.getD (strL "undefined")) with _ | args
        · simp [getEditableFeatureFromKmlFeature, getFeatureTypeOnInput, getStyle,
            hs, hIS, hIA, Bind.bind, Except.bind] at h
          rw [← h]
          simp
        · simp [getEditableFeatureFromKmlFeature, getFeatureTypeOnInput, getStyle,
            hs, hIS, hIA, Bind.bind, Except.bind] at h
          rw [← h]
          by_cases hL : args.isLegacy <;> simp [hL]

/-- The concrete feature refuting C2 as stated: a marker with a genuine
custom icon whose URL matches none of the three grammars. -/
def c2CexFeature : OlFeature :=
  ⟨none, some (strL "MARKER"), none, none, .point (1, 1),
    some ⟨none,
      some (.icon ⟨some (strL "https://example.com/assets/custom-pin.bmp"),
        some (2, 2), some (1, 1), 1⟩),
      none, none⟩⟩

/-- Counterexample to C2 as stated: the feature above parses successfully
(`.ok (some _)`), with `icon = null` (the URL is unrecognized, so
`parseIconUrl` returns null) while `iconSize` is non-null (`getIconSize`
runs on the icon style regardless) — so `icon`/`iconSize` are not null
together. -/
theorem getEditableFeatureFromKmlFeature_icon_iconSize_counterexample :
    (getEditableFeatureFromKmlFeature (.olFeature c2CexFeature) none).toOption.join.map
        (fun ef => (ef.icon.isNone, ef.iconSize.isSome))
      = some (true, true) := by
  rfl

/-- The feature used by the C2 witness: a bare annotation point. -/
def c2WitnessFeature : OlFeature :=
  ⟨none, none, none, none, .point (0, 0), some ⟨none, none, none, none⟩⟩

/-- The parsed record the C2 witness feature yields. -/
def c2WitnessEF : EditableFeature :=
  ⟨none, some .ANNOTATION, [], [], .single (0, 0), .point (0, 0),
    some RED, some SMALL, some RED, none, none⟩

/-- Witness for the amended C2 at a concrete successfully parsed
feature. -/
theorem getEditableFeatureFromKmlFeature_field_invariant_witness :
    c2WitnessEF.featureType.isSome ∧ c2WitnessEF.fillColor.isSome
      ∧ c2WitnessEF.textColor.isSome ∧ c2WitnessEF.textSize.isSome
      ∧ (c2WitnessEF.icon.isSome → c2WitnessEF.iconSize.isSome) :=
  getEditableFeatureFromKmlFeature_field_invariant (.olFeature c2WitnessFeature)
    none c2WitnessEF (by rfl)

/-! ## Order lemmas for extent bounds (proof machinery for C8) -/

/-- The smaller of two bounds, as `ol/extent.extend` computes it. -/
def qiMin (a b : QInf) : QInf := if qiLt b a then b else a

/-- The larger of two bounds, as `ol/extent.extend` computes it. -/
def qiMax (a b : QInf) : QInf := if qiLt a b then b else a

theorem extendExtent_eq (e1 e2 : OlExtent) :
    extendExtent e1 e2
      = ⟨qiMin e1.minX e2.minX, qiMin e1.minY e2.minY,
          qiMax e1.maxX e2.maxX, qiMax e1.maxY e2.maxY⟩ := rfl

theorem qiMin_fin (a b : ℚ) : qiMin (.fin a) (.fin b) = .fin (min a b) := by
  simp only [qiMin, qiLt]
  rcases le_or_lt a b with h | h
  · rw [if_neg (by simpa using not_lt.mpr h), min_eq_left h]
  · rw [if_pos (by simpa using h), min_eq_right h.le]

theorem qiMax_fin (a b : ℚ) : qiMax (.fin a) (.fin b) = .fin (max a b) := by
  simp only [qiMax, qiLt]
  rcases le_or_lt a b with h | h
  · rcases eq_or_lt_of_le h with rfl | h'
    · simp
    · rw [if_pos (by simpa using h'), max_eq_right h]
  · rw [if_neg (by simpa using not_lt.mpr h.le), max_eq_left h.le]

theorem qiMin_posInf_left (x : QInf) : qiMin .posInf x = x := by
  cases x <;> simp [qiMin, qiLt]

theorem qiMin_posInf_right (x : QInf) : qiMin x .posInf = x := by
  cases x <;> simp [qiMin, qiLt]

theorem qiMin_negInf_left (x : QInf) : qiMin .negInf x = .negInf := by
  cases x <;> simp [qiMin, qiLt]

theorem qiMin_negInf_right (x : QInf) : qiMin x .negInf = .negInf := by
  cases x <;> simp [qiMin, qiLt]

theorem qiMax_posInf_left (x : QInf) : qiMax .posInf x = .posInf := by
  cases x <;> simp [qiMax, qiLt]

theorem qiMax_posInf_right (x : QInf) : qiMax x .posInf = .posInf := by
  cases x <;> simp [qiMax, qiLt]

theorem qiMax_negInf_left (x : QInf) : qiMax .negInf x = x := by
  cases x <;> simp [qiMax, qiLt]

theorem qiMax_negInf_right (x : QInf) : qiMax x .negInf = x := by
  cases x <;> simp [qiMax, qiLt]

theorem qiMin_comm (a b : QInf) : qiMin a b = qiMin b a := by
  cases a <;> cases b <;>
    simp [qiMin_fin, qiMin_posInf_left, qiMin_posInf_right,
      qiMin_negInf_left, qiMin_negInf_right, min_comm]

theorem qiMax_comm (a b : QInf) : qiMax a b = qiMax b a := by
  cases a <;> cases b <;>
    simp [qiMax_fin, qiMax_posInf_left, qiMax_posInf_right,
      qiMax_negInf_left, qiMax_negInf_right, max_comm]

theorem qiMin_assoc (a b c : QInf) : qiMin (qiMin a b) c = qiMin a (qiMin b c) := by
  cases a <;> cases b <;> cases c <;>
    simp [qiMin_fin, qiMin_posInf_left, qiMin_posInf_right,
      qiMin_negInf_left, qiMin_negInf_right, min_assoc]

theorem qiMax_assoc (a b c : QInf) : qiMax (qiMax a b) c = qiMax a (qiMax b c) := by
  cases a <;> cases b <;> cases c <;>
    simp [qiMax_fin, qiMax_posInf_left, qiMax_posInf_right,
      qiMax_negInf_left, qiMax_negInf_right, max_assoc]

theorem qiMin_self (a : QInf) : qiMin a a = a := by
  cases a <;> simp [qiMin_fin, qiMin_posInf_left, qiMin_negInf_left]

theorem qiMax_self (a : QInf) : qiMax a a = a := by
  cases a <;> simp [qiMax_fin, qiMax_posInf_left, qiMax_negInf_left]

theorem extend_right_comm (a b c : OlExtent) :
    extendExtent (extendExtent a b) c = extendExtent (extendExtent a c) b := by
  simp only [extendExtent_eq]
  rw [OlExtent.mk.injEq]
  refine ⟨?_, ?_, ?_, ?_⟩
  · rw [qiMin_assoc, qiMin_assoc, qiMin_comm b.minX c.minX]
  · rw [qiMin_assoc, qiMin_assoc, qiMin_comm b.minY c.minY]
  · rw [qiMax_assoc, qiMax_assoc, qiMax_comm b.maxX c.maxX]
  · rw [qiMax_assoc, qiMax_assoc, qiMax_comm b.maxY c.maxY]

theorem extend_absorb_self (a b : OlExtent) :
    extendExtent (extendExtent a b) b = extendExtent a b := by
  simp only [extendExtent_eq]
  rw [OlExtent.mk.injEq]
  exact ⟨by rw [qiMin_assoc, qiMin_self], by rw [qiMin_assoc, qiMin_self],
    by rw [qiMax_assoc, qiMax_self], by rw [qiMax_assoc, qiMax_self]⟩

theorem extend_createEmpty_left (x : OlExtent) : extendExtent createEmpty x = x := by
  simp only [extendExtent_eq, createEmpty]
  rw [qiMin_posInf_left, qiMin_posInf_left, qiMax_negInf_left, qiMax_negInf_left]

theorem extend_createEmpty_right (x : OlExtent) : extendExtent x createEmpty = x := by
  simp only [extendExtent_eq, createEmpty]
  rw [qiMin_posInf_right, qiMin_posInf_right, qiMax_negInf_right, qiMax_negInf_right]

theorem qi_not_lt_extend (mn mx a b : QInf) (h : qiLt mx mn = false) :
    qiLt (qiMax mx b) (qiMin mn a) = false := by
  cases mn <;> cases mx <;> cases a <;> cases b <;>
    simp_all only [qiMin, qiMax, qiLt] <;>
    first
      | rfl
      | (split_ifs <;> simp_all <;> linarith)

theorem qi_not_lt_extend_right (mn mx a b : QInf) (h : qiLt b a = false) :
    qiLt (qiMax mx b) (qiMin mn a) = false := by
  rw [qiMax_comm, qiMin_comm]
  exact qi_not_lt_extend a b mn mx h

theorem extend_nonempty_left (e x : OlExtent) (h : isExtentEmpty e = false) :
    isExtentEmpty (extendExtent e x) = false := by
  simp only [isExtentEmpty, Bool.or_eq_false_iff] at h ⊢
  exact ⟨qi_not_lt_extend _ _ _ _ h.1, qi_not_lt_extend _ _ _ _ h.2⟩

theorem extend_nonempty_right (e x : OlExtent) (h : isExtentEmpty x = false) :
    isExtentEmpty (extendExtent e x) = false := by
  simp only [isExtentEmpty, Bool.or_eq_false_iff] at h ⊢
  exact ⟨qi_not_lt_extend_right _ _ _ _ h.1, qi_not_lt_extend_right _ _ _ _ h.2⟩

theorem foldl_extend_absorbed : ∀ (l : List OlExtent) (acc x : OlExtent),
    extendExtent acc x = acc →
    extendExtent (l.foldl extendExtent acc) x = l.foldl extendExtent acc := by
  intro l
  induction l with
  | nil => intro acc x h; exact h
  | cons hd tl ih =>
    intro acc x h
    simp only [List.foldl_cons]
    apply ih
    rw [extend_right_comm, h]

theorem foldl_extend_mem : ∀ (l : List OlExtent) (x : OlExtent), x ∈ l →
    ∀ acc, extendExtent (l.foldl extendExtent acc) x = l.foldl extendExtent acc := by
  intro l
  induction l with
  | nil => intro x hx; exact absurd hx (by simp)
  | cons hd tl ih =>
    intro x hx acc
    simp only [List.foldl_cons]
    rcases List.mem_cons.mp hx with rfl | hx'
    · exact foldl_extend_absorbed tl (extendExtent acc x) x (extend_absorb_self acc x)
    · exact ih x hx' (extendExtent acc hd)

theorem foldl_extend_nonempty : ∀ (l : List OlExtent) (acc : OlExtent),
    isExtentEmpty acc = false →
    isExtentEmpty (l.foldl extendExtent acc) = false := by
  intro l
  induction l with
  | nil => intro acc h; exact h
  | cons hd tl ih =>
    intro acc h
    simp only [List.foldl_cons]
    exact ih _ (extend_nonempty_left _ _ h)

theorem foldl_extend_mem_nonempty : ∀ (l : List OlExtent) (acc : OlExtent),
    (∃ x ∈ l, isExtentEmpty x = false) →
    isExtentEmpty (l.foldl extendExtent acc) = false := by
  intro l
  induction l with
  | nil => intro acc h; rcases h with ⟨x, hx, _⟩; exact absurd hx (by simp)
  | cons hd tl ih =>
    intro acc h
    rcases h with ⟨x, hx, hxe⟩
    simp only [List.foldl_cons]
    rcases List.mem_cons.mp hx with rfl | hx'
    · exact foldl_extend_nonempty tl _ (extend_nonempty_right _ _ hxe)
    · exact ih _ ⟨x, hx', hxe⟩

theorem foldl_extend_all_empty : ∀ (l : List OlExtent) (acc : OlExtent),
    (∀ x ∈ l, x = createEmpty) → l.foldl extendExtent acc = acc := by
  intro l
  induction l with
  | nil => intro acc _; rfl
  | cons hd tl ih =>
    intro acc h
    simp only [List.foldl_cons]
    rw [h hd (by simp), extend_createEmpty_right]
    exact ih acc (fun x hx => h x (by simp [hx]))

theorem geometryExtent_empty (g : OlGeometry) (h : g.allCoords = []) :
    geometryExtent g = createEmpty := by
  simp [geometryExtent, h]

theorem geometryExtent_nonempty (g : OlGeometry) (h : g.allCoords ≠ []) :
    isExtentEmpty (geometryExtent g) = false := by
  unfold geometryExtent
  match hc : g.allCoords with
  | [] => exact absurd hc h
  | c :: rest =>
    simp only [List.foldl_cons]
    rw [extend_createEmpty_left]
    rw [show (fun (extent : OlExtent) (c : Coord) =>
        extendExtent extent ⟨.fin c.1, .fin c.2, .fin c.1, .fin c.2⟩)
      = (fun extent c => extendExtent extent
          ((fun c : Coord => (⟨.fin c.1, .fin c.2, .fin c.1, .fin c.2⟩ : OlExtent)) c))
      from rfl]
    rw [← List.foldl_map]
    apply foldl_extend_nonempty
    simp [isExtentEmpty, qiLt]

/-- C8: the combined extent is `null` exactly when the content yields no
features or only features with empty (coordinate-free) geometries; the KML
branch of `handleFileContent` raises `EmptyKMLError` exactly in that case;
and a non-`null` extent is the union of all feature extents (it absorbs
every feature's geometry extent). -/
theorem getKmlExtent_empty_spec (features : List OlFeature) (content : FileContent)
    (source : Str) (projFn : OlExtent → Option OlExtent)
    (hc : content.kmlFeatures = features) (hk : isKml content.raw = true) :
    (getKmlExtent features = none ↔ ∀ f ∈ features, f.geometry.allCoords = [])
      ∧ ((handleFileContent content source projFn).1
          = .error .emptyKml ↔ getKmlExtent features = none)
      ∧ (∀ e, getKmlExtent features = some e →
          ∀ f ∈ features, extendExtent e (geometryExtent f.geometry) = e) := by
  subst hc
  have hfold : (content.kmlFeatures.foldl
        (fun extent feature => extendExtent extent (geometryExtent feature.geometry))
        createEmpty)
      = (content.kmlFeatures.map (fun f => geometryExtent f.geometry)).foldl
          extendExtent createEmpty := by
    rw [List.foldl_map]
  refine ⟨?_, ?_, ?_⟩
  · constructor
    · intro hnone f hf
      by_contra hne
      have h1 : isExtentEmpty ((content.kmlFeatures.map
          (fun f => geometryExtent f.geometry)).foldl extendExtent createEmpty) = false :=
        foldl_extend_mem_nonempty _ _
          ⟨geometryExtent f.geometry, List.mem_map_of_mem _ hf,
            geometryExtent_nonempty f.geometry hne⟩
      rw [getKmlExtent.eq_def, hfold] at hnone
      simp [h1] at hnone
    · intro hall
      have hempty : (content.kmlFeatures.map
          (fun f => geometryExtent f.geometry)).foldl extendExtent createEmpty
            = createEmpty := by
        apply foldl_extend_all_empty
        intro x hx
        rcases List.mem_map.mp hx with ⟨f, hf, rfl⟩
        exact geometryExtent_empty f.geometry (hall f hf)
      rw [getKmlExtent.eq_def, hfold, hempty]
      rfl
  · rcases hE : getKmlExtent content.kmlFeatures with _ | extent
    · simp [handleFileContent, hk, hE]
    · rcases hP : projFn extent with _ | proj
      · simp [handleFileContent, hk, hE, hP]
      · simp [handleFileContent, hk, hE, hP]
  · intro e he f hf
    rw [getKmlExtent.eq_def] at he
    rcases hEmp : isExtentEmpty (content.kmlFeatures.foldl
        (fun extent feature => extendExtent extent (geometryExtent feature.geometry))
        createEmpty) with _ | _
    · simp only [hEmp, Bool.false_eq_true, if_false] at he
      have he' : _ = e := Option.some.inj he
      rw [← he', hfold]
      exact foldl_extend_mem _ _ (List.mem_map_of_mem _ hf) createEmpty
    · simp [hEmp] at he

/-- Witness for C8: the empty document `<kml></kml>` (no features) raises
`EmptyKMLError` in the KML branch. -/
theorem getKmlExtent_empty_spec_witness :
    (handleFileContent ⟨strL "<kml></kml>", []⟩ (strL "file.kml")
        (fun e => some e)).1 = .error .emptyKml :=
  ((getKmlExtent_empty_spec [] ⟨strL "<kml></kml>", []⟩ (strL "file.kml")
    (fun e => some e) rfl (by decide)).2.1).mpr rfl

/-! ## Digit and scanning lemmas (proof machinery for C7) -/

theorem charDigit_toNat (m : ℕ) (h : m < 10) : (Char.ofNat (m + 48)).toNat = m + 48 := by
  interval_cases m <;> decide

theorem charDigit_isDigit (m : ℕ) (h : m < 10) : (Char.ofNat (m + 48)).isDigit = true := by
  interval_cases m <;> decide

theorem natDigits_ne_nil (n : ℕ) : natDigits n ≠ [] := by
  rw [natDigits_unfold]
  split <;> simp

theorem natDigits_all_digits (n : ℕ) : ∀ c ∈ natDigits n, c.isDigit = true := by
  induction n using Nat.strong_induction_on with
  | _ n ih =>
    intro c hc
    rw [natDigits_unfold] at hc
    split at hc
    · simp only [List.mem_singleton] at hc
      subst hc
      exact charDigit_isDigit n (by omega)
    · rcases List.mem_append.mp hc with h | h
      · exact ih (n / 10) (Nat.div_lt_self (by omega) (by omega)) c h
      · simp only [List.mem_singleton] at h
        subst h
        exact charDigit_isDigit (n % 10) (Nat.mod_lt n (by omega))

theorem digitsToNat_append_singleton (xs : Str) (c : Char) :
    digitsToNat (xs ++ [c]) = 10 * digitsToNat xs + (c.toNat - 48) := by
  simp [digitsToNat, List.foldl_append]
  ring

theorem digitsToNat_natDigits (n : ℕ) : digitsToNat (natDigits n) = n := by
  induction n using Nat.strong_induction_on with
  | _ n ih =>
    rw [natDigits_unfold]
    split
    · rename_i h
      have hchar := charDigit_toNat n h
      simp [digitsToNat, hchar]
    · rename_i h
      rw [digitsToNat_append_singleton,
        ih (n / 10) (Nat.div_lt_self (by omega) (by omega)),
        charDigit_toNat (n % 10) (Nat.mod_lt n (by omega))]
      omega

/-- A non-digit character is not among the digits of a number. -/
theorem not_mem_natDigits (n : ℕ) (c : Char) (h : c.isDigit = false) :
    c ∉ natDigits n := by
  intro hmem
  rw [natDigits_all_digits n c hmem] at h
  cases h

theorem takeWhile_all_append (p : Char → Bool) :
    ∀ (xs ys : Str), (∀ x ∈ xs, p x = true) →
      (xs ++ ys).takeWhile p = xs ++ ys.takeWhile p := by
  intro xs
  induction xs with
  | nil => intro ys _; rfl
  | cons x xs ih =>
    intro ys h
    simp only [List.cons_append, List.takeWhile_cons, h x (by simp), if_true]
    rw [ih ys (fun a ha => h a (by simp [ha]))]

theorem dropWhile_all_append (p : Char → Bool) :
    ∀ (xs ys : Str), (∀ x ∈ xs, p x = true) →
      (xs ++ ys).dropWhile p = ys.dropWhile p := by
  intro xs
  induction xs with
  | nil => intro ys _; rfl
  | cons x xs ih =>
    intro ys h
    simp only [List.cons_append, List.dropWhile_cons, h x (by simp)]
    exact ih ys (fun a ha => h a (by simp [ha]))

theorem takeWhile_cons_false (p : Char → Bool) (c : Char) (rest : Str)
    (h : p c = false) : (c :: rest).takeWhile p = [] := by
  simp [List.takeWhile_cons, h]

theorem dropWhile_cons_false (p : Char → Bool) (c : Char) (rest : Str)
    (h : p c = false) : (c :: rest).dropWhile p = c :: rest := by
  simp [List.dropWhile_cons, h]

/-- `readNat` on a rendered number followed by a non-digit. -/
theorem readNat_digits (n : ℕ) (c : Char) (rest : Str) (hc : c.isDigit = false) :
    readNat (natDigits n ++ c :: rest) = some (n, c :: rest) := by
  unfold readNat
  rw [takeWhile_all_append _ _ _ (natDigits_all_digits n),
    takeWhile_cons_false _ _ _ hc, List.append_nil,
    dropWhile_all_append _ _ _ (natDigits_all_digits n),
    dropWhile_cons_false _ _ _ hc]
  simp [natDigits_ne_nil n, digitsToNat_natDigits n]

/-- `readDigits` on a rendered number followed by a non-digit. -/
theorem readDigits_digits (ds : Str) (c : Char) (rest : Str)
    (hds : ∀ x ∈ ds, Char.isDigit x = true) (hne : ds ≠ [])
    (hc : c.isDigit = false) :
    readDigits (ds ++ c :: rest) = some (ds, c :: rest) := by
  unfold readDigits
  rw [takeWhile_all_append _ _ _ hds, takeWhile_cons_false _ _ _ hc,
    List.append_nil, dropWhile_all_append _ _ _ hds,
    dropWhile_cons_false _ _ _ hc]
  simp [hne]

/-- `readWord` on a word run followed by a non-word character. -/
theorem readWord_eval (ws : Str) (c : Char) (rest : Str)
    (hws : ∀ x ∈ ws, isWordChar x = true) (hne : ws ≠ [])
    (hc : isWordChar c = false) :
    readWord (ws ++ c :: rest) = some (ws, c :: rest) := by
  unfold readWord
  rw [takeWhile_all_append _ _ _ hws, takeWhile_cons_false _ _ _ hc,
    List.append_nil, dropWhile_all_append _ _ _ hws,
    dropWhile_cons_false _ _ _ hc]
  simp [hne]

theorem stripPrefixL_append : ∀ (pat rest : Str),
    stripPrefixL (pat ++ rest) pat = some rest := by
  intro pat
  induction pat with
  | nil => intro rest; cases rest <;> rfl
  | cons p ps ih =>
    intro rest
    simp only [List.cons_append, stripPrefixL, if_pos rfl]
    exact ih rest

theorem stripPrefixL_eq_some : ∀ (l pat rest : Str),
    stripPrefixL l pat = some rest → l = pat ++ rest := by
  intro l pat
  induction pat generalizing l with
  | nil =>
    intro rest h
    simp only [stripPrefixL] at h
    cases l <;> simpa using h
  | cons p ps ih =>
    intro rest h
    match l with
    | [] => simp [stripPrefixL] at h
    | a :: as =>
      simp only [stripPrefixL] at h
      split at h
      · rename_i heq
        subst heq
        rw [List.cons_append]
        rw [ih as rest h]
      · cases h

theorem stripPrefixL_none_of_not_startsWith : ∀ (l pat : Str),
    startsWithL l pat = false → stripPrefixL l pat = none := by
  intro l pat
  induction pat generalizing l with
  | nil => intro h; simp [startsWithL] at h
  | cons p ps ih =>
    intro h
    match l with
    | [] => rfl
    | a :: as =>
      simp only [startsWithL, Bool.and_eq_false_iff] at h
      simp only [stripPrefixL]
      rcases h with h | h
      · rw [if_neg (by simpa using h)]
      · by_cases hap : a = p
        · rw [if_pos hap, ih as h]
        · rw [if_neg hap]

theorem containsSubL_false_suffix : ∀ (url pat : Str),
    containsSubL url pat = false →
    ∀ l, l <:+ url → startsWithL l pat = false := by
  intro url pat
  induction url with
  | nil =>
    intro h l hl
    rw [List.suffix_nil.mp hl]
    match pat with
    | [] => simp [containsSubL] at h
    | p :: ps => simp [startsWithL]
  | cons c cs ih =>
    intro h l hl
    simp only [containsSubL, Bool.or_eq_false_iff] at h
    rcases List.suffix_cons_iff.mp hl with rfl | hl'
    · exact h.1
    · exact ih h.2 l hl'

/-! ## Scan-step and host-skip lemmas for the three matchers -/

theorem tryLegacyDefaultAt_none_strip (l : Str)
    (h : stripPrefixL l (strL "color/") = none) : tryLegacyDefaultAt l = none := by
  simp [tryLegacyDefaultAt, h]

theorem tryLegacyDefaultAt_ne (c : Char) (cs : Str) (h : ¬c = 'c') :
    tryLegacyDefaultAt (c :: cs) = none := by
  apply tryLegacyDefaultAt_none_strip
  rw [show strL "color/" = 'c' :: strL "olor/" from rfl]
  simp only [stripPrefixL, if_neg h]

theorem tryLegacyDefaultAt_c_ne (d : Char) (cs : Str) (h : ¬d = 'o') :
    tryLegacyDefaultAt ('c' :: d :: cs) = none := by
  apply tryLegacyDefaultAt_none_strip
  rw [show strL "color/" = 'c' :: ('o' :: strL "lor/") from rfl]
  simp [stripPrefixL, h]

theorem legacyDefaultMatchFn_step (c : Char) (cs : Str)
    (h : tryLegacyDefaultAt (c :: cs) = none) :
    legacyDefaultMatchFn (c :: cs) = legacyDefaultMatchFn cs := by
  have e : legacyDefaultMatchFn (c :: cs)
      = match tryLegacyDefaultAt (c :: cs) with
        | some groups => some groups
        | none => legacyDefaultMatchFn cs := rfl
  rw [e, h]

theorem legacyDefaultMatchFn_hit (c : Char) (cs : Str) (g : LegacyDefaultGroups)
    (h : tryLegacyDefaultAt (c :: cs) = some g) :
    legacyDefaultMatchFn (c :: cs) = some g := by
  have e : legacyDefaultMatchFn (c :: cs)
      = match tryLegacyDefaultAt (c :: cs) with
        | some groups => some groups
        | none => legacyDefaultMatchFn cs := rfl
  rw [e, h]

theorem tryLegacySetAt_none_strip (l : Str)
    (h : stripPrefixL l (strL "images/") = none) : tryLegacySetAt l = none := by
  simp [tryLegacySetAt, h]

theorem tryLegacySetAt_ne (c : Char) (cs : Str) (h : ¬c = 'i') :
    tryLegacySetAt (c :: cs) = none := by
  apply tryLegacySetAt_none_strip
  rw [show strL "images/" = 'i' :: strL "mages/" from rfl]
  simp only [stripPrefixL, if_neg h]

theorem tryLegacySetAt_i_ne (d : Char) (cs : Str) (h : ¬d = 'm') :
    tryLegacySetAt ('i' :: d :: cs) = none := by
  apply tryLegacySetAt_none_strip
  rw [show strL "images/" = 'i' :: ('m' :: strL "ages/") from rfl]
  simp [stripPrefixL, h]

theorem legacySetMatchFn_step (c : Char) (cs : Str)
    (h : tryLegacySetAt (c :: cs) = none) :
    legacySetMatchFn (c :: cs) = legacySetMatchFn cs := by
  have e : legacySetMatchFn (c :: cs)
      = match tryLegacySetAt (c :: cs) with
        | some groups => some groups
        | none => legacySetMatchFn cs := rfl
  rw [e, h]

theorem legacySetMatchFn_hit (c : Char) (cs : Str) (g : LegacySetGroups)
    (h : tryLegacySetAt (c :: cs) = some g) :
    legacySetMatchFn (c :: cs) = some g := by
  have e : legacySetMatchFn (c :: cs)
      = match tryLegacySetAt (c :: cs) with
        | some groups => some groups
        | none => legacySetMatchFn cs := rfl
  rw [e, h]

theorem tryNewIconAt_none_strip (l : Str)
    (h : stripPrefixL l (strL "api/icons/sets/") = none) : tryNewIconAt l = none := by
  simp [tryNewIconAt, h]

theorem tryNewIconAt_ne (c : Char) (cs : Str) (h : ¬c = 'a') :
    tryNewIconAt (c :: cs) = none := by
  apply tryNewIconAt_none_strip
  rw [show strL "api/icons/sets/" = 'a' :: strL "pi/icons/sets/" from rfl]
  simp only [stripPrefixL, if_neg h]

theorem tryNewIconAt_a_ne (d : Char) (cs : Str) (h : ¬d = 'p') :
    tryNewIconAt ('a' :: d :: cs) = none := by
  apply tryNewIconAt_none_strip
  rw [show strL "api/icons/sets/" = 'a' :: ('p' :: strL "i/icons/sets/") from rfl]
  simp [stripPrefixL, h]

theorem tryNewIconAt_ap_ne (d : Char) (cs : Str) (h : ¬d = 'i') :
    tryNewIconAt ('a' :: 'p' :: d :: cs) = none := by
  apply tryNewIconAt_none_strip
  rw [show strL "api/icons/sets/" = 'a' :: ('p' :: ('i' :: strL "/icons/sets/")) from rfl]
  simp [stripPrefixL, h]

theorem newIconMatchFn_step (c : Char) (cs : Str)
    (h : tryNewIconAt (c :: cs) = none) :
    newIconMatchFn (c :: cs) = newIconMatchFn cs := by
  have e : newIconMatchFn (c :: cs)
      = match tryNewIconAt (c :: cs) with
        | some groups => some groups
        | none => newIconMatchFn cs := rfl
  rw [e, h]

theorem newIconMatchFn_hit (c : Char) (cs : Str) (g : NewIconGroups)
    (h : tryNewIconAt (c :: cs) = some g) :
    newIconMatchFn (c :: cs) = some g := by
  have e : newIconMatchFn (c :: cs)
      = match tryNewIconAt (c :: cs) with
        | some groups => some groups
        | none => newIconMatchFn cs := rfl
  rw [e, h]

theorem legacyDefaultMatchFn_skip_host (rest : Str) :
    legacyDefaultMatchFn (strL "https://api3.geo.admin.ch/" ++ rest) = legacyDefaultMatchFn rest := by
  rw [show strL "https://api3.geo.admin.ch/" ++ rest = 'h' :: ('t' :: ('t' :: ('p' :: ('s' :: (':' :: ('/' :: ('/' :: ('a' :: ('p' :: ('i' :: ('3' :: ('.' :: ('g' :: ('e' :: ('o' :: ('.' :: ('a' :: ('d' :: ('m' :: ('i' :: ('n' :: ('.' :: ('c' :: ('h' :: ('/' :: (rest)))))))))))))))))))))))))) from rfl]
  rw [legacyDefaultMatchFn_step _ _ (tryLegacyDefaultAt_ne _ _ (by decide))]
  rw [legacyDefaultMatchFn_step _ _ (tryLegacyDefaultAt_ne _ _ (by decide))]
  rw [legacyDefaultMatchFn_step _ _ (tryLegacyDefaultAt_ne _ _ (by decide))]
  rw [legacyDefaultMatchFn_step _ _ (tryLegacyDefaultAt_ne _ _ (by decide))]
  rw [legacyDefaultMatchFn_step _ _ (tryLegacyDefaultAt_ne _ _ (by decide))]
  rw [legacyDefaultMatchFn_step _ _ (tryLegacyDefaultAt_ne _ _ (by decide))]
  rw [legacyDefaultMatchFn_step _ _ (tryLegacyDefaultAt_ne _ _ (by decide))]
  rw [legacyDefaultMatchFn_step _ _ (tryLegacyDefaultAt_ne _ _ (by decide))]
  rw [legacyDefaultMatchFn_step _ _ (tryLegacyDefaultAt_ne _ _ (by decide))]
  rw [legacyDefaultMatchFn_step _ _ (tryLegacyDefaultAt_ne _ _ (by decide))]
  rw [legacyDefaultMatchFn_step _ _ (tryLegacyDefaultAt_ne _ _ (by decide))]
  rw [legacyDefaultMatchFn_step _ _ (tryLegacyDefaultAt_ne _ _ (by decide))]
  rw [legacyDefaultMatchFn_step _ _ (tryLegacyDefaultAt_ne _ _ (by decide))]
  rw [legacyDefaultMatchFn_step _ _ (tryLegacyDefaultAt_ne _ _ (by decide))]
  rw [legacyDefaultMatchFn_step _ _ (tryLegacyDefaultAt_ne _ _ (by decide))]
  rw [legacyDefaultMatchFn_step _ _ (tryLegacyDefaultAt_ne _ _ (by decide))]
  rw [legacyDefaultMatchFn_step _ _ (tryLegacyDefaultAt_ne _ _ (by decide))]
  rw [legacyDefaultMatchFn_step _ _ (tryLegacyDefaultAt_ne _ _ (by decide))]
  rw [legacyDefaultMatchFn_step _ _ (tryLegacyDefaultAt_ne _ _ (by decide))]
  rw [legacyDefaultMatchFn_step _ _ (tryLegacyDefaultAt_ne _ _ (by decide))]
  rw [legacyDefaultMatchFn_step _ _ (tryLegacyDefaultAt_ne _ _ (by decide))]
  rw [legacyDefaultMatchFn_step _ _ (tryLegacyDefaultAt_ne _ _ (by decide))]
  rw [legacyDefaultMatchFn_step _ _ (tryLegacyDefaultAt_ne _ _ (by decide))]
  rw [legacyDefaultMatchFn_step _ _ (tryLegacyDefaultAt_c_ne _ _ (by decide))]
  rw [legacyDefaultMatchFn_step _ _ (tryLegacyDefaultAt_ne _ _ (by decide))]
  rw [legacyDefaultMatchFn_step _ _ (tryLegacyDefaultAt_ne _ _ (by decide))]


theorem legacySetMatchFn_skip_host (rest : Str) :
    legacySetMatchFn (strL "https://api3.geo.admin.ch/" ++ rest) = legacySetMatchFn rest := by
  rw [show strL "https://api3.geo.admin.ch/" ++ rest = 'h' :: ('t' :: ('t' :: ('p' :: ('s' :: (':' :: ('/' :: ('/' :: ('a' :: ('p' :: ('i' :: ('3' :: ('.' :: ('g' :: ('e' :: ('o' :: ('.' :: ('a' :: ('d' :: ('m' :: ('i' :: ('n' :: ('.' :: ('c' :: ('h' :: ('/' :: (rest)))))))))))))))))))))))))) from rfl]
  rw [legacySetMatchFn_step _ _ (tryLegacySetAt_ne _ _ (by decide))]
  rw [legacySetMatchFn_step _ _ (tryLegacySetAt_ne _ _ (by decide))]
  rw [legacySetMatchFn_step _ _ (tryLegacySetAt_ne _ _ (by decide))]
  rw [legacySetMatchFn_step _ _ (tryLegacySetAt_ne _ _ (by decide))]
  rw [legacySetMatchFn_step _ _ (tryLegacySetAt_ne _ _ (by decide))]
  rw [legacySetMatchFn_step _ _ (tryLegacySetAt_ne _ _ (by decide))]
  rw [legacySetMatchFn_step _ _ (tryLegacySetAt_ne _ _ (by decide))]
  rw [legacySetMatchFn_step _ _ (tryLegacySetAt_ne _ _ (by decide))]
  rw [legacySetMatchFn_step _ _ (tryLegacySetAt_ne _ _ (by decide))]
  rw [legacySetMatchFn_step _ _ (tryLegacySetAt_ne _ _ (by decide))]
  rw [legacySetMatchFn_step _ _ (tryLegacySetAt_i_ne _ _ (by decide))]
  rw [legacySetMatchFn_step _ _ (tryLegacySetAt_ne _ _ (by decide))]
  rw [legacySetMatchFn_step _ _ (tryLegacySetAt_ne _ _ (by decide))]
  rw [legacySetMatchFn_step _ _ (tryLegacySetAt_ne _ _ (by decide))]
  rw [legacySetMatchFn_step _ _ (tryLegacySetAt_ne _ _ (by decide))]
  rw [legacySetMatchFn_step _ _ (tryLegacySetAt_ne _ _ (by decide))]
  rw [legacySetMatchFn_step _ _ (tryLegacySetAt_ne _ _ (by decide))]
  rw [legacySetMatchFn_step _ _ (tryLegacySetAt_ne _ _ (by decide))]
  rw [legacySetMatchFn_step _ _ (tryLegacySetAt_ne _ _ (by decide))]
  rw [legacySetMatchFn_step _ _ (tryLegacySetAt_ne _ _ (by decide))]
  rw [legacySetMatchFn_step _ _ (tryLegacySetAt_i_ne _ _ (by decide))]
  rw [legacySetMatchFn_step _ _ (tryLegacySetAt_ne _ _ (by decide))]
  rw [legacySetMatchFn_step _ _ (tryLegacySetAt_ne _ _ (by decide))]
  rw [legacySetMatchFn_step _ _ (tryLegacySetAt_ne _ _ (by decide))]
  rw [legacySetMatchFn_step _ _ (tryLegacySetAt_ne _ _ (by decide))]
  rw [legacySetMatchFn_step _ _ (tryLegacySetAt_ne _ _ (by decide))]


theorem newIconMatchFn_skip_host (rest : Str) :
    newIconMatchFn (strL "https://map.geo.admin.ch/" ++ rest) = newIconMatchFn rest := by
  rw [show strL "https://map.geo.admin.ch/" ++ rest = 'h' :: ('t' :: ('t' :: ('p' :: ('s' :: (':' :: ('/' :: ('/' :: ('m' :: ('a' :: ('p' :: ('.' :: ('g' :: ('e' :: ('o' :: ('.' :: ('a' :: ('d' :: ('m' :: ('i' :: ('n' :: ('.' :: ('c' :: ('h' :: ('/' :: (rest))))))))))))))))))))))))) from rfl]
  rw [newIconMatchFn_step _ _ (tryNewIconAt_ne _ _ (by decide))]
  rw [newIconMatchFn_step _ _ (tryNewIconAt_ne _ _ (by decide))]
  rw [newIconMatchFn_step _ _ (tryNewIconAt_ne _ _ (by decide))]
  rw [newIconMatchFn_step _ _ (tryNewIconAt_ne _ _ (by decide))]
  rw [newIconMatchFn_step _ _ (tryNewIconAt_ne _ _ (by decide))]
  rw [newIconMatchFn_step _ _ (tryNewIconAt_ne _ _ (by decide))]
  rw [newIconMatchFn_step _ _ (tryNewIconAt_ne _ _ (by decide))]
  rw [newIconMatchFn_step _ _ (tryNewIconAt_ne _ _ (by decide))]
  rw [newIconMatchFn_step _ _ (tryNewIconAt_ne _ _ (by decide))]
  rw [newIconMatchFn_step _ _ (tryNewIconAt_ap_ne _ _ (by decide))]
  rw [newIconMatchFn_step _ _ (tryNewIconAt_ne _ _ (by decide))]
  rw [newIconMatchFn_step _ _ (tryNewIconAt_ne _ _ (by decide))]
  rw [newIconMatchFn_step _ _ (tryNewIconAt_ne _ _ (by decide))]
  rw [newIconMatchFn_step _ _ (tryNewIconAt_ne _ _ (by decide))]
  rw [newIconMatchFn_step _ _ (tryNewIconAt_ne _ _ (by decide))]
  rw [newIconMatchFn_step _ _ (tryNewIconAt_ne _ _ (by decide))]
  rw [newIconMatchFn_step _ _ (tryNewIconAt_a_ne _ _ (by decide))]
  rw [newIconMatchFn_step _ _ (tryNewIconAt_ne _ _ (by decide))]
  rw [newIconMatchFn_step _ _ (tryNewIconAt_ne _ _ (by decide))]
  rw [newIconMatchFn_step _ _ (tryNewIconAt_ne _ _ (by decide))]
  rw [newIconMatchFn_step _ _ (tryNewIconAt_ne _ _ (by decide))]
  rw [newIconMatchFn_step _ _ (tryNewIconAt_ne _ _ (by decide))]
  rw [newIconMatchFn_step _ _ (tryNewIconAt_ne _ _ (by decide))]
  rw [newIconMatchFn_step _ _ (tryNewIconAt_ne _ _ (by decide))]
  rw [newIconMatchFn_step _ _ (tryNewIconAt_ne _ _ (by decide))]

theorem legacyDefaultMatchFn_none_of_no_color (url : Str)
    (h : containsSubL url (strL "color/") = false) :
    legacyDefaultMatchFn url = none := by
  induction url with
  | nil => rfl
  | cons c cs ih =>
    simp only [containsSubL, Bool.or_eq_false_iff] at h
    rw [legacyDefaultMatchFn_step c cs (tryLegacyDefaultAt_none_strip _
      (stripPrefixL_none_of_not_startsWith _ _ h.1))]
    exact ih h.2

theorem legacySetMatchFn_none_of_no_images (url : Str)
    (h : containsSubL url (strL "images/") = false) :
    legacySetMatchFn url = none := by
  induction url with
  | nil => rfl
  | cons c cs ih =>
    simp only [containsSubL, Bool.or_eq_false_iff] at h
    rw [legacySetMatchFn_step c cs (tryLegacySetAt_none_strip _
      (stripPrefixL_none_of_not_startsWith _ _ h.1))]
    exact ih h.2

theorem expectChar_eval (c : Char) (rest : Str) :
    expectChar c (c :: rest) = some rest := by
  simp [expectChar]

/-! ## Generators of valid icon URLs, one per grammar -/

/-- A URL of the legacy colored grammar
`…/color/{r},{g},{b}/{name}-{size}@{scale}x.png`. -/
def legacyColoredUrl (name : Str) (r g b size scale : ℕ) : Str :=
  strL "https://api3.geo.admin.ch/"
    ++ (strL "color/"
      ++ (natDigits r ++ ',' :: (natDigits g ++ ',' :: (natDigits b
        ++ '/' :: (name ++ '-' :: (natDigits size
          ++ '@' :: (natDigits scale ++ strL "x.png")))))))

/-- A URL of the legacy set-based grammar `…/images/{set}/{name}.png`. -/
def legacySetUrl (set name : Str) : Str :=
  strL "https://api3.geo.admin.ch/"
    ++ (strL "images/" ++ (set ++ '/' :: (name ++ strL ".png")))

/-- A URL of the current grammar
`…/api/icons/sets/{set}/icons/{name}@{scale}x-{r},{g},{b}.png`. -/
def currentIconUrl (set name : Str) (scale r g b : ℕ) : Str :=
  strL "https://map.geo.admin.ch/"
    ++ (strL "api/icons/sets/"
      ++ (set ++ '/' :: (strL "icons/"
        ++ (name ++ '@' :: (natDigits scale
          ++ 'x' :: '-' :: (natDigits r ++ ',' :: (natDigits g
            ++ ',' :: (natDigits b ++ strL ".png"))))))))

theorem parseLegacyTail_eval (name : Str) (size scale : ℕ)
    (hname : name ≠ []) (hslash : '/' ∉ name) :
    parseLegacyTail (name ++ '-' :: (natDigits size
        ++ '@' :: (natDigits scale ++ strL "x.png")))
      = some (name, size, scale) := by
  have hrev : (name ++ '-' :: (natDigits size
        ++ '@' :: (natDigits scale ++ strL "x.png"))).reverse
      = strL "gnp.x" ++ ((natDigits scale).reverse
          ++ '@' :: ((natDigits size).reverse ++ '-' :: name.reverse)) := by
    rw [show strL "x.png" = ['x', '.', 'p', 'n', 'g'] from rfl,
      show strL "gnp.x" = ['g', 'n', 'p', '.', 'x'] from rfl]
    simp [List.reverse_append, List.append_assoc]
  have h1 : ∀ R : Str,
      stripPrefixL ((strL "x.png").reverse ++ R) (strL "gnp.x") = some R := by
    intro R
    rw [show (strL "x.png").reverse = strL "gnp.x" from rfl]
    exact stripPrefixL_append _ _
  have h2 : readDigits ((natDigits scale).reverse
        ++ '@' :: ((natDigits size).reverse ++ '-' :: name.reverse))
      = some ((natDigits scale).reverse,
          '@' :: ((natDigits size).reverse ++ '-' :: name.reverse)) :=
    readDigits_digits ((natDigits scale).reverse) '@' _
      (fun x hx => natDigits_all_digits scale x (List.mem_reverse.mp hx))
      (by simp [natDigits_ne_nil]) (by decide)
  have h3 : readDigits ((natDigits size).reverse ++ '-' :: name.reverse)
      = some ((natDigits size).reverse, '-' :: name.reverse) :=
    readDigits_digits ((natDigits size).reverse) '-' _
      (fun x hx => natDigits_all_digits size x (List.mem_reverse.mp hx))
      (by simp [natDigits_ne_nil]) (by decide)
  have hne' : ¬(List.reverse name = []) := by simp [hname]
  have hmem : ('/' : Char) ∉ List.reverse name := by simp [hslash]
  simp [parseLegacyTail, h1, h2, h3, expectChar_eval, hne', hmem,
    digitsToNat_natDigits]

theorem tryLegacyDefaultAt_eval (name : Str) (r g b size scale : ℕ)
    (hname : name ≠ []) (hslash : '/' ∉ name) :
    tryLegacyDefaultAt (strL "color/"
        ++ (natDigits r ++ ',' :: (natDigits g ++ ',' :: (natDigits b
          ++ '/' :: (name ++ '-' :: (natDigits size
            ++ '@' :: (natDigits scale ++ strL "x.png")))))))
      = some ⟨r, g, b, name, size, scale⟩ := by
  have hr := readNat_digits r ',' (natDigits g ++ ',' :: (natDigits b
    ++ '/' :: (name ++ '-' :: (natDigits size
      ++ '@' :: (natDigits scale ++ strL "x.png"))))) (by decide)
  have hg := readNat_digits g ',' (natDigits b
    ++ '/' :: (name ++ '-' :: (natDigits size
      ++ '@' :: (natDigits scale ++ strL "x.png")))) (by decide)
  have hb := readNat_digits b '/' (name ++ '-' :: (natDigits size
    ++ '@' :: (natDigits scale ++ strL "x.png"))) (by decide)
  have htail := parseLegacyTail_eval name size scale hname hslash
  simp [tryLegacyDefaultAt, stripPrefixL_append, hr, hg, hb, htail,
    expectChar_eval]

/-- The legacy colored regex on a generated legacy colored URL: the host is
skipped, the pattern fires at `color/` and captures the encoded groups. -/
theorem legacyDefaultMatchFn_legacyColoredUrl (name : Str) (r g b size scale : ℕ)
    (hname : name ≠ []) (hslash : '/' ∉ name) :
    legacyDefaultMatchFn (legacyColoredUrl name r g b size scale)
      = some ⟨r, g, b, name, size, scale⟩ := by
  unfold legacyColoredUrl
  rw [legacyDefaultMatchFn_skip_host]
  rw [show strL "color/"
      ++ (natDigits r ++ ',' :: (natDigits g ++ ',' :: (natDigits b
        ++ '/' :: (name ++ '-' :: (natDigits size
          ++ '@' :: (natDigits scale ++ strL "x.png"))))))
    = 'c' :: (strL "olor/"
      ++ (natDigits r ++ ',' :: (natDigits g ++ ',' :: (natDigits b
        ++ '/' :: (name ++ '-' :: (natDigits size
          ++ '@' :: (natDigits scale ++ strL "x.png"))))))) from rfl]
  apply legacyDefaultMatchFn_hit
  exact tryLegacyDefaultAt_eval name r g b size scale hname hslash

theorem tryLegacySetAt_eval (set name : Str)
    (hset : set ≠ []) (hword : ∀ c ∈ set, isWordChar c = true)
    (hname : name ≠ []) (hslash : '/' ∉ name) :
    tryLegacySetAt (strL "images/" ++ (set ++ '/' :: (name ++ strL ".png")))
      = some ⟨set, name⟩ := by
  have hw := readWord_eval set '/' (name ++ strL ".png") hword hset (by decide)
  have hrev : ∀ R : Str,
      stripPrefixL ((strL ".png").reverse ++ R) (strL "gnp.") = some R := by
    intro R
    rw [show (strL ".png").reverse = strL "gnp." from rfl]
    exact stripPrefixL_append _ _
  have hne' : ¬(List.reverse name = []) := by simp [hname]
  have hmem : ('/' : Char) ∉ List.reverse name := by simp [hslash]
  simp [tryLegacySetAt, stripPrefixL_append, hw, expectChar_eval, hrev,
    hne', hmem]

/-- The legacy set regex on a generated legacy set URL. -/
theorem legacySetMatchFn_legacySetUrl (set name : Str)
    (hset : set ≠ []) (hword : ∀ c ∈ set, isWordChar c = true)
    (hname : name ≠ []) (hslash : '/' ∉ name) :
    legacySetMatchFn (legacySetUrl set name) = some ⟨set, name⟩ := by
  unfold legacySetUrl
  rw [legacySetMatchFn_skip_host]
  rw [show strL "images/" ++ (set ++ '/' :: (name ++ strL ".png"))
    = 'i' :: (strL "mages/" ++ (set ++ '/' :: (name ++ strL ".png"))) from rfl]
  apply legacySetMatchFn_hit
  exact tryLegacySetAt_eval set name hset hword hname hslash

theorem parseNewSuffix_eval (scale r g b : ℕ) :
    parseNewSuffix ('@' :: (natDigits scale
        ++ 'x' :: '-' :: (natDigits r ++ ',' :: (natDigits g
          ++ ',' :: (natDigits b ++ strL ".png")))))
      = some (natDigits scale, r, g, b) := by
  have hsc := readDigits_digits (natDigits scale) 'x'
    ('-' :: (natDigits r ++ ',' :: (natDigits g ++ ',' :: (natDigits b ++ strL ".png"))))
    (natDigits_all_digits scale) (natDigits_ne_nil scale) (by decide)
  have hr := readNat_digits r ','
    (natDigits g ++ ',' :: (natDigits b ++ strL ".png")) (by decide)
  have hg := readNat_digits g ',' (natDigits b ++ strL ".png") (by decide)
  have hb : readNat (natDigits b ++ strL ".png")
      = some (b, strL ".png") := by
    rw [show strL ".png" = '.' :: strL "png" from rfl]
    exact readNat_digits b '.' (strL "png") (by decide)
  have hpng : stripPrefixL (strL ".png") (strL ".png") = some [] := by
    rw [show strL ".png" = strL ".png" ++ [] by simp]
    exact stripPrefixL_append _ _
  simp [parseNewSuffix, expectChar_eval, hsc, hr, hg, hb, hpng]

theorem parseNewSuffix_not_at (c : Char) (cs : Str) (h : ¬c = '@') :
    parseNewSuffix (c :: cs) = none := by
  simp [parseNewSuffix, expectChar, h]

theorem newNameSearch_eval : ∀ (name acc S scaleDs : Str) (r g b : ℕ),
    name ≠ [] → '@' ∉ name → (∀ c ∈ name, isLineTerminator c = false) →
    parseNewSuffix S = some (scaleDs, r, g, b) →
    newNameSearch acc (name ++ S) = some (acc.reverse ++ name, scaleDs, r, g, b) := by
  intro name
  induction name with
  | nil => intro acc S scaleDs r g b hne; exact absurd rfl hne
  | cons n1 rest ih =>
    intro acc S scaleDs r g b _ hat hterm hS
    match rest with
    | [] =>
      have e : newNameSearch acc ([n1] ++ S)
          = if isLineTerminator n1 then none
            else
              match parseNewSuffix S with
              | some (scale, r, g, b) => some ((n1 :: acc).reverse, scale, r, g, b)
              | none => newNameSearch (n1 :: acc) S := rfl
      rw [e, if_neg (by simp [hterm n1 (List.mem_cons_self n1 _)]), hS]
      simp
    | n2 :: ns =>
      have e : newNameSearch acc ((n1 :: n2 :: ns) ++ S)
          = if isLineTerminator n1 then none
            else
              match parseNewSuffix (n2 :: ns ++ S) with
              | some (scale, r, g, b) => some ((n1 :: acc).reverse, scale, r, g, b)
              | none => newNameSearch (n1 :: acc) (n2 :: ns ++ S) := rfl
      rw [e, if_neg (by simp [hterm n1 (List.mem_cons_self n1 _)])]
      simp only [List.cons_append]
      have hnone := parseNewSuffix_not_at n2 (ns ++ S)
        (by intro hc; exact hat (by simp [hc]))
      rw [hnone]
      have hrec := ih (n1 :: acc) S scaleDs r g b (by simp)
        (fun hmem => hat (List.mem_cons.mpr (Or.inr hmem)))
        (fun c hmem => hterm c (List.mem_cons.mpr (Or.inr hmem))) hS
      simp only [List.cons_append] at hrec
      rw [hrec]
      simp

theorem tryNewIconAt_eval (set name : Str) (scale r g b : ℕ)
    (hset : set ≠ []) (hword : ∀ c ∈ set, isWordChar c = true)
    (hname : name ≠ []) (hat : '@' ∉ name)
    (hterm : ∀ c ∈ name, isLineTerminator c = false) :
    tryNewIconAt (strL "api/icons/sets/"
        ++ (set ++ '/' :: (strL "icons/"
          ++ (name ++ '@' :: (natDigits scale
            ++ 'x' :: '-' :: (natDigits r ++ ',' :: (natDigits g
              ++ ',' :: (natDigits b ++ strL ".png"))))))))
      = some ⟨set, name, natDigits scale, r, g, b⟩ := by
  have hw := readWord_eval set '/' (strL "icons/"
    ++ (name ++ '@' :: (natDigits scale
      ++ 'x' :: '-' :: (natDigits r ++ ',' :: (natDigits g
        ++ ',' :: (natDigits b ++ strL ".png")))))) hword hset (by decide)
  have hsearch := newNameSearch_eval name [] ('@' :: (natDigits scale
      ++ 'x' :: '-' :: (natDigits r ++ ',' :: (natDigits g
        ++ ',' :: (natDigits b ++ strL ".png")))))
    (natDigits scale) r g b hname hat hterm (parseNewSuffix_eval scale r g b)
  simp only [List.reverse_nil, List.nil_append] at hsearch
  simp [tryNewIconAt, stripPrefixL_append, hw, expectChar_eval, hsearch]

/-- The current-pattern regex on a generated current URL. -/
theorem newIconMatchFn_currentIconUrl (set name : Str) (scale r g b : ℕ)
    (hset : set ≠ []) (hword : ∀ c ∈ set, isWordChar c = true)
    (hname : name ≠ []) (hat : '@' ∉ name)
    (hterm : ∀ c ∈ name, isLineTerminator c = false) :
    newIconMatchFn (currentIconUrl set name scale r g b)
      = some ⟨set, name, natDigits scale, r, g, b⟩ := by
  unfold currentIconUrl
  rw [newIconMatchFn_skip_host]
  rw [show strL "api/icons/sets/"
      ++ (set ++ '/' :: (strL "icons/"
        ++ (name ++ '@' :: (natDigits scale
          ++ 'x' :: '-' :: (natDigits r ++ ',' :: (natDigits g
            ++ ',' :: (natDigits b ++ strL ".png")))))))
    = 'a' :: (strL "pi/icons/sets/"
      ++ (set ++ '/' :: (strL "icons/"
        ++ (name ++ '@' :: (natDigits scale
          ++ 'x' :: '-' :: (natDigits r ++ ',' :: (natDigits g
            ++ ',' :: (natDigits b ++ strL ".png")))))))) from rfl]
  apply newIconMatchFn_hit
  exact tryNewIconAt_eval set name scale r g b hset hword hname hat hterm

/-- C7: round-trip of `parseIconUrl` over the three URL grammars — a URL
generated by the legacy colored grammar (name without `/`, channels in
range) parses to set `"default"`, the encoded name and color, `isLegacy =
true`; a URL of the legacy set grammar (word-character set name, name
without `/`, and no stray `color/` substring) parses to the encoded set and
name with the default red color and `isLegacy = true`; a URL of the current
grammar (word-character set, name without `/`, `@` or a line terminator,
channels in range, no stray `color/` or `images/` substring) parses to the
encoded set,
name and color with `isLegacy = false`; and a URL matched by none of the
three regexes parses to `null` (and never throws — the matchers and
`parseIconUrl` are total functions). -/
theorem parseIconUrl_roundtrip :
    (∀ (name : Str) (r g b size scale : ℕ),
      name ≠ [] → '/' ∉ name → r ≤ 255 → g ≤ 255 → b ≤ 255 →
      parseIconUrl (legacyColoredUrl name r g b size scale)
        = some ⟨strL "default", name, ⟨.value r, .value g, .value b⟩, true⟩)
    ∧ (∀ (set name : Str),
      set ≠ [] → (∀ c ∈ set, isWordChar c = true) → name ≠ [] → '/' ∉ name →
      containsSubL (legacySetUrl set name) (strL "color/") = false →
      parseIconUrl (legacySetUrl set name)
        = some ⟨set, name, ⟨.value 255, .value 0, .value 0⟩, true⟩)
    ∧ (∀ (set name : Str) (scale r g b : ℕ),
      set ≠ [] → (∀ c ∈ set, isWordChar c = true) → name ≠ [] →
      '/' ∉ name → '@' ∉ name → (∀ c ∈ name, isLineTerminator c = false) →
      r ≤ 255 → g ≤ 255 → b ≤ 255 →
      containsSubL (currentIconUrl set name scale r g b) (strL "color/") = false →
      containsSubL (currentIconUrl set name scale r g b) (strL "images/") = false →
      parseIconUrl (currentIconUrl set name scale r g b)
        = some ⟨set, name, ⟨.value r, .value g, .value b⟩, false⟩)
    ∧ (∀ url : Str,
      legacyDefaultMatchFn url = none → legacySetMatchFn url = none →
      newIconMatchFn url = none → parseIconUrl url = none) := by
  refine ⟨?_, ?_, ?_, ?_⟩
  · intro name r g b size scale hname hslash hr hg hb
    have hd := legacyDefaultMatchFn_legacyColoredUrl name r g b size scale hname hslash
    simp [parseIconUrl, hd, LegacyDefaultGroups.toGroups, parseRGBColor,
      hr, hg, hb]
  · intro set name hset hword hname hslash hnocolor
    have hnd := legacyDefaultMatchFn_none_of_no_color _ hnocolor
    have hs := legacySetMatchFn_legacySetUrl set name hset hword hname hslash
    simp [parseIconUrl, hnd, hs, LegacySetGroups.toGroups, parseRGBColor]
  · intro set name scale r g b hset hword hname hslash hat hterm hr hg hb
      hnocolor hnoimages
    have hnd := legacyDefaultMatchFn_none_of_no_color _ hnocolor
    have hns := legacySetMatchFn_none_of_no_images _ hnoimages
    have hn := newIconMatchFn_currentIconUrl set name scale r g b hset hword
      hname hat hterm
    simp [parseIconUrl, hnd, hns, hn, NewIconGroups.toGroups, parseRGBColor,
      hr, hg, hb]
  · intro url h1 h2 h3
    simp [parseIconUrl, h1, h2, h3]

/-- Witness for C7: one concrete URL per grammar, plus one unmatched
URL. -/
theorem parseIconUrl_roundtrip_witness :
    parseIconUrl (legacyColoredUrl (strL "marker") 255 0 0 24 1)
      = some ⟨strL "default", strL "marker",
          ⟨.value 255, .value 0, .value 0⟩, true⟩
    ∧ parseIconUrl (legacySetUrl (strL "babs") (strL "B007"))
      = some ⟨strL "babs", strL "B007",
          ⟨.value 255, .value 0, .value 0⟩, true⟩
    ∧ parseIconUrl (currentIconUrl (strL "default") (strL "001-marker") 2 0 128 255)
      = some ⟨strL "default", strL "001-marker",
          ⟨.value 0, .value 128, .value 255⟩, false⟩
    ∧ parseIconUrl (strL "https://example.com/not-an-icon.jpeg") = none :=
  ⟨parseIconUrl_roundtrip.1 (strL "marker") 255 0 0 24 1 (by decide) (by decide)
      (by decide) (by decide) (by decide),
    parseIconUrl_roundtrip.2.1 (strL "babs") (strL "B007") (by decide)
      (by decide) (by decide) (by decide) (by decide),
    parseIconUrl_roundtrip.2.2.1 (strL "default") (strL "001-marker") 2 0 128 255
      (by decide) (by decide) (by decide) (by decide) (by decide) (by decide)
      (by decide) (by decide) (by decide) (by decide) (by decide),
    parseIconUrl_roundtrip.2.2.2 (strL "https://example.com/not-an-icon.jpeg")
      (by decide) (by decide) (by decide)⟩
